import Mathlib

/-!
# Verification of the JSX metadata annotation engine

This file gives a shallow embedding of the annotation engine of the
`babel-plugin-jsx-metadata` repository (the mature variant in
`scripts/generate-live-preview-bridge.js` together with
`src/loopMetadata.ts` / `src/propertyAccess.ts`), and proves or refutes
the frozen specification claims about it.

The embedding follows the source: JSX trees become an inductive type,
the mutable per-component `IdGenerationContext` becomes explicitly
threaded state, and the unbounded `do … while` retry loop of
`generateNewId` becomes a fuel-indexed function returning `Option`
(the source loop has no mathematical termination guarantee, since the
hash could in principle keep colliding with the used-id set).

Identifiers are MD5 digests truncated to 12 hex characters in the
source (`crypto.createHash("md5") … .substring(0, 12)`), so we start
with an executable MD5 implementation over byte lists, with 32-bit
words represented as `Nat` reduced mod `2 ^ 32`.
-/

set_option autoImplicit false
set_option maxRecDepth 4096

namespace JsxMeta

/-! ## MD5 (RFC 1321), executable, over `Nat` words mod 2^32 -/

/-- 2^32, the word modulus for MD5 arithmetic. -/
def w32 : Nat := 4294967296

/-- Reduce a natural number to a 32-bit word. -/
def mod32 (n : Nat) : Nat := n % w32

/-- Bitwise complement on 32-bit words (operand assumed < 2^32). -/
def not32 (n : Nat) : Nat := Nat.xor n 4294967295

/-- Left-rotate a 32-bit word by `s` bits. -/
def rotl32 (x s : Nat) : Nat :=
  Nat.lor (mod32 (Nat.shiftLeft x s)) (Nat.shiftRight x (32 - s))

/-- The 64 MD5 sine-derived constants. -/
def md5K : List Nat :=
  [0xd76aa478, 0xe8c7b756, 0x242070db, 0xc1bdceee,
   0xf57c0faf, 0x4787c62a, 0xa8304613, 0xfd469501,
   0x698098d8, 0x8b44f7af, 0xffff5bb1, 0x895cd7be,
   0x6b901122, 0xfd987193, 0xa679438e, 0x49b40821,
   0xf61e2562, 0xc040b340, 0x265e5a51, 0xe9b6c7aa,
   0xd62f105d, 0x02441453, 0xd8a1e681, 0xe7d3fbc8,
   0x21e1cde6, 0xc33707d6, 0xf4d50d87, 0x455a14ed,
   0xa9e3e905, 0xfcefa3f8, 0x676f02d9, 0x8d2a4c8a,
   0xfffa3942, 0x8771f681, 0x6d9d6122, 0xfde5380c,
   0xa4beea44, 0x4bdecfa9, 0xf6bb4b60, 0xbebfbc70,
   0x289b7ec6, 0xeaa127fa, 0xd4ef3085, 0x04881d05,
   0xd9d4d039, 0xe6db99e5, 0x1fa27cf8, 0xc4ac5665,
   0xf4292244, 0x432aff97, 0xab9423a7, 0xfc93a039,
   0x655b59c3, 0x8f0ccc92, 0xffeff47d, 0x85845dd1,
   0x6fa87e4f, 0xfe2ce6e0, 0xa3014314, 0x4e0811a1,
   0xf7537e82, 0xbd3af235, 0x2ad7d2bb, 0xeb86d391]

/-- The 64 MD5 per-round left-rotation amounts. -/
def md5S : List Nat :=
  [7, 12, 17, 22, 7, 12, 17, 22, 7, 12, 17, 22, 7, 12, 17, 22,
   5, 9, 14, 20, 5, 9, 14, 20, 5, 9, 14, 20, 5, 9, 14, 20,
   4, 11, 16, 23, 4, 11, 16, 23, 4, 11, 16, 23, 4, 11, 16, 23,
   6, 10, 15, 21, 6, 10, 15, 21, 6, 10, 15, 21, 6, 10, 15, 21]

/-- MD5 nonlinear round function, selected by the round index `i`. -/
def md5F (i b c d : Nat) : Nat :=
  if i < 16 then Nat.lor (Nat.land b c) (Nat.land (not32 b) d)
  else if i < 32 then Nat.lor (Nat.land d b) (Nat.land (not32 d) c)
  else if i < 48 then Nat.xor b (Nat.xor c d)
  else Nat.xor c (Nat.lor b (not32 d))

/-- MD5 message-word index for round `i`. -/
def md5G (i : Nat) : Nat :=
  if i < 16 then i
  else if i < 32 then (5 * i + 1) % 16
  else if i < 48 then (3 * i + 5) % 16
  else (7 * i) % 16

/-- One MD5 round step on the state `(a, b, c, d)` with message block `m`. -/
def md5Step (m : List Nat) (st : Nat × Nat × Nat × Nat) (i : Nat) :
    Nat × Nat × Nat × Nat :=
  match st with
  | (a, b, c, d) =>
    let f := mod32 (md5F i b c d + a + (md5K.getD i 0) + (m.getD (md5G i) 0))
    (d, mod32 (b + rotl32 f (md5S.getD i 0)), b, c)

/-- Decode 4 consecutive little-endian bytes into one 32-bit word. -/
def le4 (bs : List Nat) (j : Nat) : Nat :=
  bs.getD (4 * j) 0 + 256 * bs.getD (4 * j + 1) 0 +
    65536 * bs.getD (4 * j + 2) 0 + 16777216 * bs.getD (4 * j + 3) 0

/-- Decode a 64-byte block into its 16 little-endian message words. -/
def blockWords (bs : List Nat) : List Nat :=
  (List.range 16).map (le4 bs)

/-- Process one 64-byte block, updating the MD5 chaining state. -/
def md5Block (st : Nat × Nat × Nat × Nat) (bs : List Nat) :
    Nat × Nat × Nat × Nat :=
  match st with
  | (a0, b0, c0, d0) =>
    let m := blockWords bs
    match (List.range 64).foldl (fun s i => md5Step m s i) (a0, b0, c0, d0) with
    | (a, b, c, d) =>
      (mod32 (a0 + a), mod32 (b0 + b), mod32 (c0 + c), mod32 (d0 + d))

/-- Split a byte list into 64-byte blocks; `n` bounds the block count. -/
def splitBlocks : Nat → List Nat → List (List Nat)
  | 0, _ => []
  | n + 1, bs => bs.take 64 :: splitBlocks n (bs.drop 64)

/-- Encode a 32-bit word as 4 little-endian bytes. -/
def wordLEBytes (w : Nat) : List Nat :=
  [w % 256, w / 256 % 256, w / 65536 % 256, w / 16777216 % 256]

/-- MD5 padding: append `0x80`, zero-fill to 56 mod 64, then the
64-bit little-endian bit length. -/
def md5Pad (msg : List Nat) : List Nat :=
  let lenBits := 8 * msg.length
  let padLen := (55 + 64 - msg.length % 64) % 64 + 1
  msg ++ (0x80 :: List.replicate (padLen - 1) 0) ++
    wordLEBytes (lenBits % w32) ++ wordLEBytes (lenBits / w32 % w32)

/-- MD5 digest of a byte list: 16 output bytes. -/
def md5Bytes (msg : List Nat) : List Nat :=
  let padded := md5Pad msg
  let blocks := splitBlocks (padded.length / 64) padded
  match blocks.foldl md5Block (0x67452301, 0xefcdab89, 0x98badcfe, 0x10325476) with
  | (a, b, c, d) =>
    wordLEBytes a ++ wordLEBytes b ++ wordLEBytes c ++ wordLEBytes d

/-- Lowercase hex digit for a value below 16. -/
def hexDigit (n : Nat) : Char :=
  if n < 10 then Char.ofNat (48 + n) else Char.ofNat (87 + n)

/-- Two lowercase hex digits of one byte. -/
def hexByte (b : Nat) : List Char :=
  [hexDigit (b / 16 % 16), hexDigit (b % 16)]

/-- UTF-8 encoding of one character, as `crypto`'s `update` sees strings. -/
def utf8Bytes (c : Char) : List Nat :=
  let n := c.toNat
  if n < 128 then [n]
  else if n < 2048 then
    [192 + n / 64, 128 + n % 64]
  else if n < 65536 then
    [224 + n / 4096, 128 + n / 64 % 64, 128 + n % 64]
  else
    [240 + n / 262144, 128 + n / 4096 % 64, 128 + n / 64 % 64, 128 + n % 64]

/-- UTF-8 bytes of a string. -/
def strBytes (s : String) : List Nat :=
  (s.toList.map utf8Bytes).flatten

/-- Full 32-character lowercase hex MD5 digest of a string. -/
def md5hex (s : String) : String :=
  String.mk ((md5Bytes (strBytes s)).map hexByte).flatten

/-- `crypto.createHash("md5").update(s).digest("hex").substring(0, 12)`:
the first 12 hex characters, i.e. the hex of the first 6 digest bytes. -/
def md5hex12 (s : String) : String :=
  String.mk (((md5Bytes (strBytes s)).take 6).map hexByte).flatten

/-! ## JSX tree data model

Mirrors the Babel node kinds the engine inspects: `JSXElement`,
`JSXText`, `JSXExpressionContainer`, `JSXFragment`, `JSXSpreadChild`
for children; `JSXAttribute` / `JSXSpreadAttribute` for attributes;
attribute values are string literals, expression containers, or absent.
Expressions model the shapes the engine branches on: identifiers,
(optional) member accesses with literal or computed keys, string and
null literals, array literals (these last three appear in emitted
attribute values), and an opaque constructor carrying the referenced
identifier names of any other expression form. -/

/-- Member-access key, as classified by `getPropertyAccessSegment`:
a non-computed identifier key, a string-literal key, a numeric-literal
key, a computed identifier key (`x[i]`), a private name, or any other
computed key shape. -/
inductive MKey where
  | idProp (name : String)
  | strProp (s : String)
  | numProp (n : Nat)
  | computedIdentKey (name : String)
  | privKey
  | otherKey
deriving DecidableEq, Repr

/-- Expression shapes the engine distinguishes. `wrapped` covers the
type-assertion / type-cast / parenthesization wrapper nodes that
`unwrapExpression` strips. `opaqueE refs` stands for any other
expression, remembering only which identifier names it references
(what Babel's `isReferencedIdentifier` traversal would find). -/
inductive Expr where
  | ident (name : String)
  | member (obj : Expr) (key : MKey) (computed : Bool) (opt : Bool)
  | strLit (s : String)
  | nullLit
  | arrayL (elems : List Expr)
  | wrapped (e : Expr)
  | opaqueE (refs : List String)

/-- A JSX attribute value: string literal, expression container, or a
valueless attribute. -/
inductive AttrValue where
  | str (s : String)
  | exprC (e : Expr)
  | bare

/-- A JSX attribute: named (`JSXAttribute` with a `JSXIdentifier` name)
or a spread attribute. -/
inductive Attr where
  | named (name : String) (value : AttrValue)
  | spreadA

/-- A JSX child node. -/
inductive Child where
  | elem (tag : String) (attrs : List Attr) (children : List Child)
  | text (s : String)
  | exprSlot (e : Expr)
  | frag (children : List Child)
  | spread

/-- The per-component mutable state of the engine
(`IdGenerationContext` in the source), threaded explicitly. -/
structure IdGenerationContext where
  filename : String
  usedIds : List String
  elementCounter : Nat
  elementPath : List String
deriving DecidableEq, Repr

/-! ## Helper predicates and attribute plumbing -/

/-- `value.trim() !== ""`: the string has some non-whitespace character. -/
def hasNonWhitespace (s : String) : Bool :=
  s.toList.any (fun c => !c.isWhitespace)

/-- `isReactComponent`: the tag's first character matches `/^[A-Z]/`. -/
def isReactComponent (tag : String) : Bool :=
  match tag.toList with
  | c :: _ => decide ('A' ≤ c) && decide (c ≤ 'Z')
  | [] => false

/-- Value of the first `JSXAttribute` with the given name
(skipping spread attributes), as `attributes.find` does. -/
def findAttrValue : List Attr → String → Option AttrValue
  | [], _ => none
  | .named n v :: rest, name =>
    if n == name then some v else findAttrValue rest name
  | .spreadA :: rest, name => findAttrValue rest name

/-- The argument union accepted by `setOrUpdateAttribute`. -/
inductive AttributeValueArg where
  | strA (s : String)
  | exprA (e : Expr)

/-- `normalizeAttributeValue`: plain strings become string literals,
expressions become expression containers (string literals and existing
containers pass through, which coincides with these two cases). -/
def normalizeAttributeValue : AttributeValueArg → AttrValue
  | .strA s => .str s
  | .exprA e => .exprC e

/-- Replace the first attribute with the given name in place, else
append a new attribute at the end (body of `setOrUpdateAttribute`
after normalization). -/
def setAttrNorm : List Attr → String → AttrValue → List Attr
  | [], name, v => [.named name v]
  | .named n w :: rest, name, v =>
    if n == name then .named name v :: rest
    else .named n w :: setAttrNorm rest name v
  | .spreadA :: rest, name, v => .spreadA :: setAttrNorm rest name v

/-- `setOrUpdateAttribute`: normalize the value, then replace the first
same-named attribute in place or append at the end. -/
def setOrUpdateAttribute (attrs : List Attr) (name : String)
    (value : AttributeValueArg) : List Attr :=
  setAttrNorm attrs name (normalizeAttributeValue value)

/-! ## Identifier assignment (`generateNewId`, `assignElementId`) -/

/-- The deterministic seed `${pathStr}[${counter}]@${filename}` hashed
by `generateNewId`, where `pathStr` joins the ancestor tag path with
`.` and appends `.element` (or is plainly `element` at the root). -/
def seedString (path : List String) (counter : Nat) (filename : String) : String :=
  let pathStr :=
    if path.isEmpty then "element"
    else String.intercalate "." path ++ ".element"
  pathStr ++ "[" ++ toString counter ++ "]@" ++ filename

/-- The `do … while (usedIds.has(newId))` loop of `generateNewId`:
hash the seed of the current counter, post-increment the counter, and
retry on collision. `fuel` bounds the retries; the source loop is
unbounded, and exhaustion returns `none`. -/
def generateNewId : Nat → IdGenerationContext →
    Option (String × IdGenerationContext)
  | 0, _ => none
  | fuel + 1, ctx =>
    let newId := md5hex12 (seedString ctx.elementPath ctx.elementCounter ctx.filename)
    let ctx1 := { ctx with elementCounter := ctx.elementCounter + 1 }
    if ctx.usedIds.contains newId then generateNewId fuel ctx1
    else some (newId, ctx1)

/-- `Set.prototype.add` on the used-id set. -/
def insertId (id : String) (ids : List String) : List String :=
  if ids.contains id then ids else id :: ids

/-- The adoption test of `assignElementId`: the existing
`data-editor-id` value is a string literal that is truthy, has a
non-empty trim, and is not already used. -/
def adoptable (ctx : IdGenerationContext) (s : String) : Bool :=
  (!(s == "")) && hasNonWhitespace s && !(ctx.usedIds.contains s)

/-- The `finalId` computation of `assignElementId`: adopt a valid
unused existing `data-editor-id` string, otherwise synthesize. -/
def chooseElementId (fuel : Nat) (attrs : List Attr)
    (ctx : IdGenerationContext) : Option (String × IdGenerationContext) :=
  match findAttrValue attrs "data-editor-id" with
  | some (.str s) =>
    if adoptable ctx s then some (s, ctx) else generateNewId fuel ctx
  | _ => generateNewId fuel ctx

/-- `assignElementId`: adopt a valid unused existing `data-editor-id`,
otherwise synthesize a fresh one; record the final id in the used set
and write it onto the element. Returns the id, the updated attribute
list, and the updated context. -/
def assignElementId (fuel : Nat) (attrs : List Attr)
    (ctx : IdGenerationContext) :
    Option (String × List Attr × IdGenerationContext) :=
  match chooseElementId fuel attrs ctx with
  | none => none
  | some (finalId, ctx1) =>
    some (finalId,
      setOrUpdateAttribute attrs "data-editor-id" (.strA finalId),
      { ctx1 with usedIds := insertId finalId ctx1.usedIds })

/-- `addComponentAttributes`: set `data-component-file` and
`data-component-name`, then assign the editor id. -/
def addComponentAttributes (fuel : Nat) (attrs : List Attr)
    (filename componentName : String) (ctx : IdGenerationContext) :
    Option (List Attr × IdGenerationContext) :=
  let attrs1 := setOrUpdateAttribute attrs "data-component-file" (.strA filename)
  let attrs2 := setOrUpdateAttribute attrs1 "data-component-name" (.strA componentName)
  match assignElementId fuel attrs2 ctx with
  | none => none
  | some (_, attrs3, ctx1) => some (attrs3, ctx1)

/-- `addRenderedByAttributes`: set `data-rendered-by` to the filename,
then assign the editor id. -/
def addRenderedByAttributes (fuel : Nat) (attrs : List Attr)
    (filename : String) (ctx : IdGenerationContext) :
    Option (List Attr × IdGenerationContext) :=
  let attrs1 := setOrUpdateAttribute attrs "data-rendered-by" (.strA filename)
  match assignElementId fuel attrs1 ctx with
  | none => none
  | some (_, attrs2, ctx1) => some (attrs2, ctx1)

/-! ## The tree annotator (`processJSXChildren` and the component pass)

The source pushes the current element's tag on `context.elementPath`
before iterating children and pops it afterwards; here the push is the
functional update at each recursive call site and the pop restores the
caller's path. The `forEach`-with-`processedChildren` loop becomes
structural recursion over the child list. -/

mutual
/-- One iteration of `processJSXChildren`'s child loop: native element
children receive `data-rendered-by` plus an editor id and are descended
into with wrapping off; composed-component children are descended into
with wrapping on; non-whitespace text and single-identifier expression
slots are wrapped in a synthetic `span` when wrapping is on; everything
else passes through unchanged. -/
def processChild (fuel : Nat) (filename : String) (wrap : Bool) :
    Child → IdGenerationContext → Option (Child × IdGenerationContext)
  | .elem tag attrs children, ctx =>
    if isReactComponent tag then
      match processChildList fuel filename true children
          { ctx with elementPath := ctx.elementPath ++ [tag] } with
      | none => none
      | some (children2, ctx2) =>
        some (.elem tag attrs children2,
          { ctx2 with elementPath := ctx.elementPath })
    else
      match addRenderedByAttributes fuel attrs filename ctx with
      | none => none
      | some (attrs2, ctx1) =>
        match processChildList fuel filename false children
            { ctx1 with elementPath := ctx1.elementPath ++ [tag] } with
        | none => none
        | some (children2, ctx2) =>
          some (.elem tag attrs2 children2,
            { ctx2 with elementPath := ctx1.elementPath })
  | .text s, ctx =>
    if hasNonWhitespace s && wrap then
      match addRenderedByAttributes fuel [] filename ctx with
      | none => none
      | some (spanAttrs, ctx1) =>
        some (.elem "span" spanAttrs [.text s], ctx1)
    else some (.text s, ctx)
  | .exprSlot e, ctx =>
    if wrap then
      match e with
      | .ident n =>
        match addRenderedByAttributes fuel [] filename ctx with
        | none => none
        | some (spanAttrs, ctx1) =>
          some (.elem "span" spanAttrs [.exprSlot (.ident n)], ctx1)
      | e1 => some (.exprSlot e1, ctx)
    else some (.exprSlot e, ctx)
  | .frag cs, ctx => some (.frag cs, ctx)
  | .spread, ctx => some (.spread, ctx)

/-- The child loop of `processJSXChildren`, threading the context left
to right and rebuilding the processed child list. -/
def processChildList (fuel : Nat) (filename : String) (wrap : Bool) :
    List Child → IdGenerationContext →
    Option (List Child × IdGenerationContext)
  | [], ctx => some ([], ctx)
  | c :: rest, ctx =>
    match processChild fuel filename wrap c ctx with
    | none => none
    | some (c2, ctx1) =>
      match processChildList fuel filename wrap rest ctx1 with
      | none => none
      | some (rest2, ctx2) => some (c2 :: rest2, ctx2)
end

/-- `processJSXChildren` on an element with the given tag and children:
push the tag on the path, run the child loop, restore the path. -/
def processJSXChildren (fuel : Nat) (filename : String) (wrap : Bool)
    (tag : String) (children : List Child) (ctx : IdGenerationContext) :
    Option (List Child × IdGenerationContext) :=
  match processChildList fuel filename wrap children
      { ctx with elementPath := ctx.elementPath ++ [tag] } with
  | none => none
  | some (children2, ctx2) =>
    some (children2, { ctx2 with elementPath := ctx.elementPath })

/-- `addEditorMetadata` on an opening element's attribute list: a no-op
when the filename is empty; otherwise component attributes for roots
and rendered-by attributes for non-roots. -/
def addEditorMetadata (fuel : Nat) (filename componentName : String)
    (isRoot : Bool) (attrs : List Attr) (ctx : IdGenerationContext) :
    Option (List Attr × IdGenerationContext) :=
  if filename == "" then some (attrs, ctx)
  else if isRoot then addComponentAttributes fuel attrs filename componentName ctx
  else addRenderedByAttributes fuel attrs filename ctx

/-- A component body as the engine's root discovery sees it: a returned
JSX element, a returned fragment, or anything else (no resolvable JSX,
a no-op). The factory-call compatibility path is normalized to the
element form before annotation and is represented by it. -/
inductive CompBody where
  | elemB (tag : String) (attrs : List Attr) (children : List Child)
  | fragB (children : List Child)
  | otherB

/-- One component definition visited by the plugin: its bound name and
its returned body. -/
structure ComponentDef where
  name : String
  body : CompBody

/-- `addEditorMetadataToFragmentChildren`: each element child of a
returned fragment is annotated as a root. -/
def addEditorMetadataToFragmentChildren (fuel : Nat)
    (filename componentName : String) :
    List Child → IdGenerationContext →
    Option (List Child × IdGenerationContext)
  | [], ctx => some ([], ctx)
  | .elem tag attrs children :: rest, ctx =>
    match addEditorMetadata fuel filename componentName true attrs ctx with
    | none => none
    | some (attrs2, ctx1) =>
      match addEditorMetadataToFragmentChildren fuel filename componentName rest ctx1 with
      | none => none
      | some (rest2, ctx2) => some (.elem tag attrs2 children :: rest2, ctx2)
  | c :: rest, ctx =>
    match addEditorMetadataToFragmentChildren fuel filename componentName rest ctx with
    | none => none
    | some (rest2, ctx1) => some (c :: rest2, ctx1)

/-- `addRenderedByToFragmentChildren`: each element child of a returned
fragment has its children processed with wrapping off. -/
def addRenderedByToFragmentChildren (fuel : Nat) (filename : String) :
    List Child → IdGenerationContext →
    Option (List Child × IdGenerationContext)
  | [], ctx => some ([], ctx)
  | .elem tag attrs children :: rest, ctx =>
    match processJSXChildren fuel filename false tag children ctx with
    | none => none
    | some (children2, ctx1) =>
      match addRenderedByToFragmentChildren fuel filename rest ctx1 with
      | none => none
      | some (rest2, ctx2) => some (.elem tag attrs children2 :: rest2, ctx2)
  | c :: rest, ctx =>
    match addRenderedByToFragmentChildren fuel filename rest ctx with
    | none => none
    | some (rest2, ctx1) => some (c :: rest2, ctx1)

/-- `processComponent`: create a fresh per-component context, annotate
the discovered root (element root: component attributes, then child
processing with wrapping off; fragment root: each element child is a
root, then child processing), and return the rewritten definition with
the final context. -/
def processComponent (fuel : Nat) (filename : String)
    (cdef : ComponentDef) : Option (ComponentDef × IdGenerationContext) :=
  let ctx : IdGenerationContext :=
    { filename := filename, usedIds := [], elementCounter := 0, elementPath := [] }
  match cdef.body with
  | .elemB tag attrs children =>
    match addEditorMetadata fuel filename cdef.name true attrs ctx with
    | none => none
    | some (attrs2, ctx1) =>
      match processJSXChildren fuel filename false tag children ctx1 with
      | none => none
      | some (children2, ctx2) =>
        some ({ cdef with body := .elemB tag attrs2 children2 }, ctx2)
  | .fragB children =>
    if filename == "" then
      match addRenderedByToFragmentChildren fuel filename children ctx with
      | none => none
      | some (children2, ctx1) =>
        some ({ cdef with body := .fragB children2 }, ctx1)
    else
      match addEditorMetadataToFragmentChildren fuel filename cdef.name children ctx with
      | none => none
      | some (children1, ctx1) =>
        match addRenderedByToFragmentChildren fuel filename children1 ctx1 with
        | none => none
        | some (children2, ctx2) =>
          some ({ cdef with body := .fragB children2 }, ctx2)
  | .otherB => some (cdef, ctx)

/-- Annotate every component definition of one file, each with its own
fresh context (as the `FunctionDeclaration` / `VariableDeclarator`
visitors do). -/
def annotateFile (fuel : Nat) (filename : String) :
    List ComponentDef → Option (List ComponentDef)
  | [] => some []
  | d :: rest =>
    match processComponent fuel filename d with
    | none => none
    | some (d2, _) =>
      match annotateFile fuel filename rest with
      | none => none
      | some rest2 => some (d2 :: rest2)

/-- `filename.includes(skipFile)`: substring containment. -/
def strIncludes (hay needle : String) : Bool :=
  decide (List.IsInfix needle.toList hay.toList)

/-- The plugin options (`MetadataOptions`). -/
structure MetadataOptions where
  filename : Option String
  skipFiles : Option (List String)
deriving DecidableEq, Repr

/-- The skip test of `attachMetadata`: some entry equals the filename
or is contained in it. -/
def shouldSkipFile (filename : String) (skipFiles : List String) : Bool :=
  skipFiles.any (fun skipFile => filename == skipFile || strIncludes filename skipFile)

/-- `attachMetadata`: default the options, return the identity
transformation (empty visitor) on a skip match, otherwise annotate
every component definition of the file. -/
def attachMetadata (fuel : Nat) (opts : MetadataOptions)
    (file : List ComponentDef) : Option (List ComponentDef) :=
  let filename := opts.filename.getD ""
  let skipFiles := opts.skipFiles.getD []
  if shouldSkipFile filename skipFiles then some file
  else annotateFile fuel filename file

/-! ## Loop metadata (`src/loopMetadata.ts`)

The loop annotator works on the literal array that backs a rendered
`collection.map(callback)` call. Literal initializers are modeled with
source locations attached, since the emitted `data-children-source` /
`data-img-source` values are JSON location descriptors. -/

/-- A source location (`node.loc`): 1-based lines, 0-based columns, as
Babel reports them. -/
structure Loc where
  startLine : Nat
  startCol : Nat
  endLine : Nat
  endCol : Nat
deriving DecidableEq, Repr

/-- An object-literal property key. -/
inductive ObjKey where
  | idK (name : String)
  | strK (s : String)
  | numK (n : Nat)
  | otherK
deriving DecidableEq, Repr

mutual
/-- A literal expression as walked by `getLocationForSegments`:
an object literal, an array literal, or any other expression (leaf). -/
inductive LitExpr where
  | objE (props : List ObjProp) (loc : Option Loc)
  | arrE (elems : List ColElem) (loc : Option Loc)
  | leafE (loc : Option Loc)

/-- An object-literal member: an `ObjectProperty` or anything else
(spread, method), which the walk skips. -/
inductive ObjProp where
  | objProp (key : ObjKey) (value : LitExpr)
  | otherProp

/-- One entry of an array literal's `elements`: an expression, a spread
element, or a hole. -/
inductive ColElem where
  | litEl (e : LitExpr)
  | spreadEl
  | holeEl
end

/-- The `loc` of a literal node. -/
def litLoc : LitExpr → Option Loc
  | .objE _ loc => loc
  | .arrE _ loc => loc
  | .leafE loc => loc

/-- `PropertyAccessSegment` of the loop annotator: a named property or
a numeric index. -/
inductive PropertyAccessSegment where
  | property (name : String)
  | index (n : Nat)
deriving DecidableEq, Repr

/-- `getPropertyAccessSegment`: private names fail; a non-computed
identifier key or any string-literal key yields a property segment; a
numeric-literal key yields an index segment; computed non-literal keys
fail. -/
def getPropertyAccessSegment (key : MKey) (computed : Bool) :
    Option PropertyAccessSegment :=
  match key, computed with
  | .privKey, _ => none
  | .idProp n, false => some (.property n)
  | .strProp s, _ => some (.property s)
  | .numProp n, _ => some (.index n)
  | _, _ => none

/-- `unwrapExpression`: strip type-assertion / type-cast /
parenthesization wrappers. -/
def unwrapExpression : Expr → Expr
  | .wrapped e => unwrapExpression e
  | e => e

/-- `buildPropertySegmentsFromExpression`: an identifier resolves to an
empty path iff it is one of the callback's item parameter names; a
(possibly optional) member access extends its object's path by one
segment; anything else fails. -/
def buildPropertySegmentsFromExpression (itemParamNames : List String) :
    Expr → Option (List PropertyAccessSegment)
  | .ident n =>
    if itemParamNames.contains n then some [] else none
  | .member obj key computed _ =>
    match buildPropertySegmentsFromExpression itemParamNames obj with
    | none => none
    | some baseSegments =>
      match getPropertyAccessSegment key computed with
      | none => none
      | some segment => some (baseSegments ++ [segment])
  | _ => none

/-- `extractPropertySegments`: unwrap, then build the segment list. -/
def extractPropertySegments (e : Expr) (itemParamNames : List String) :
    Option (List PropertyAccessSegment) :=
  buildPropertySegmentsFromExpression itemParamNames (unwrapExpression e)

mutual
/-- Identifier names referenced by an expression (what the
`Identifier` visitor of `expressionReferencesNames` collects; tag and
attribute names are `JSXIdentifier`s and excluded by construction). -/
def refNames : Expr → List String
  | .ident n => [n]
  | .member obj key _ _ =>
    refNames obj ++
      (match key with
       | .computedIdentKey n => [n]
       | _ => [])
  | .strLit _ => []
  | .nullLit => []
  | .arrayL es => refNamesList es
  | .wrapped e => refNames e
  | .opaqueE refs => refs

/-- Referenced names of an expression list. -/
def refNamesList : List Expr → List String
  | [] => []
  | e :: rest => refNames e ++ refNamesList rest
end

/-- `expressionReferencesNames`: the expression references at least one
of the item parameter names. -/
def expressionReferencesNames (e : Expr) (itemParamNames : List String) : Bool :=
  !itemParamNames.isEmpty && (refNames e).any itemParamNames.contains

mutual
/-- Identifier names referenced anywhere inside a child subtree
(attribute expression containers and expression-slot children, at all
depths). -/
def childRefNames : Child → List String
  | .elem _ attrs children => attrListRefNames attrs ++ childListRefNames children
  | .text _ => []
  | .exprSlot e => refNames e
  | .frag cs => childListRefNames cs
  | .spread => []

/-- Referenced names of an attribute list. -/
def attrListRefNames : List Attr → List String
  | [] => []
  | .named _ (.exprC e) :: rest => refNames e ++ attrListRefNames rest
  | _ :: rest => attrListRefNames rest

/-- Referenced names of a child list. -/
def childListRefNames : List Child → List String
  | [] => []
  | c :: rest => childRefNames c ++ childListRefNames rest
end

/-- `elementReferencesParamNames`: some descendant identifier of the
element is one of the item parameter names. -/
def elementReferencesParamNames (c : Child) (itemParamNames : List String) : Bool :=
  !itemParamNames.isEmpty && (childRefNames c).any itemParamNames.contains

/-- `CollectionSourceInfo`: the mapped-over variable's name and the
element entries of its backing literal array. -/
structure CollectionSourceInfo where
  sourceName : String
  elems : List ColElem

/-- The initializer expression of a binding, with the wrapper shapes
`unwrapExpressionPath` strips (`TSAsExpression`, `TypeCastExpression`,
`TSTypeAssertion`, `ParenthesizedExpression`). -/
inductive InitExpr where
  | arrayInit (elems : List ColElem)
  | callInit
  | tsAs (e : InitExpr)
  | typeCast (e : InitExpr)
  | tsAssert (e : InitExpr)
  | parenI (e : InitExpr)
  | otherInit

/-- A binding's declaration site: a `VariableDeclarator` (with an
optional initializer) or any other declaration form (function
declaration, import specifier, parameter, …). -/
inductive BindingPath where
  | varDecl (init : Option InitExpr)
  | otherDecl

/-- A scope binding as `scope.getBinding` returns it: its kind string
(`"module"` for imports) and its declaration path. -/
structure Binding where
  kind : String
  path : BindingPath

/-- `unwrapExpressionPath` on an initializer: strip the wrapper nodes. -/
def unwrapInit : InitExpr → InitExpr
  | .tsAs e => unwrapInit e
  | .typeCast e => unwrapInit e
  | .tsAssert e => unwrapInit e
  | .parenI e => unwrapInit e
  | e => e

/-- `resolveCollectionSourceInfo`: the mapped-over identifier must
resolve to a non-module binding whose path is a variable declarator
whose initializer unwraps to an array literal; otherwise `null`. -/
def resolveCollectionSourceInfo (sourceName : String) :
    Option Binding → Option CollectionSourceInfo
  | none => none
  | some b =>
    if b.kind == "module" then none
    else
      match b.path with
      | .otherDecl => none
      | .varDecl none => none
      | .varDecl (some init) =>
        match unwrapInit init with
        | .arrayInit elems => some { sourceName := sourceName, elems := elems }
        | _ => none

mutual
/-- A callback parameter / binding pattern (`t.FunctionParameter` and
`LVal` shapes handled by `collectNamesFromFunctionParameter`). -/
inductive Param where
  | identP (name : String)
  | objPat (props : List PatProp)
  | arrPat (elems : List ArrPatElem)
  | assignPat (left : Param)
  | restP (arg : Param)
  | tsParamProp (p : Param)
  | otherParam

/-- An object-pattern member: a property (with its value pattern) or a
rest element. -/
inductive PatProp where
  | propPat (value : Param)
  | restPat (arg : Param)
  | otherPP

/-- One array-pattern element: a hole or a pattern. -/
inductive ArrPatElem where
  | holeP
  | someP (p : Param)
end

mutual
/-- `collectNamesFromPattern`: names bound by an `LVal` pattern. -/
def collectNamesFromPattern : Param → List String
  | .identP n => [n]
  | .assignPat left => collectNamesFromPattern left
  | .restP arg => collectNamesFromPattern arg
  | .objPat props => collectNamesFromPatProps props
  | .arrPat elems => collectNamesFromPatElems elems
  | .tsParamProp _ => []
  | .otherParam => []

/-- Names bound by the members of an object pattern. -/
def collectNamesFromPatProps : List PatProp → List String
  | [] => []
  | .propPat v :: rest => collectNamesFromPattern v ++ collectNamesFromPatProps rest
  | .restPat a :: rest => collectNamesFromPattern a ++ collectNamesFromPatProps rest
  | .otherPP :: rest => collectNamesFromPatProps rest

/-- Names bound by the elements of an array pattern (holes skipped). -/
def collectNamesFromPatElems : List ArrPatElem → List String
  | [] => []
  | .holeP :: rest => collectNamesFromPatElems rest
  | .someP p :: rest => collectNamesFromPattern p ++ collectNamesFromPatElems rest
end

/-- `collectNamesFromFunctionParameter`: unwrap a TS parameter
property, then collect pattern names (a rest parameter only when its
argument is an identifier or object/array pattern). -/
def collectNamesFromFunctionParameter : Param → List String
  | .tsParamProp p => collectNamesFromFunctionParameter p
  | .identP n => [n]
  | .objPat props => collectNamesFromPattern (.objPat props)
  | .arrPat elems => collectNamesFromPattern (.arrPat elems)
  | .assignPat left => collectNamesFromPattern left
  | .restP arg =>
    match arg with
    | .identP n => collectNamesFromPattern (.identP n)
    | .objPat props => collectNamesFromPattern (.objPat props)
    | .arrPat elems => collectNamesFromPattern (.arrPat elems)
    | _ => []
  | .otherParam => []

/-- `collectItemParamNames`: the names bound by the callback's first
parameter. -/
def collectItemParamNames (params : List Param) : List String :=
  match params with
  | [] => []
  | firstParam :: _ => collectNamesFromFunctionParameter firstParam

/-- `getIndexParamExpression`: the callback's second parameter as an
identifier (possibly behind a default value); the source clones it into
a fresh `t.identifier`, so only the name matters. -/
def getIndexParamExpression (params : List Param) : Option String :=
  match params with
  | _ :: indexParam :: _ =>
    match indexParam with
    | .identP n => some n
    | .assignPat (.identP n) => some n
    | _ => none
  | _ => none

/-- One return statement's argument inside a block body. -/
inductive RetArg where
  | retElem (tag : String) (attrs : List Attr) (children : List Child)
  | retFrag (children : List Child)
  | retOther

/-- The callback body shapes `getReturnedJSXElements` understands: a
direct JSX element, a fragment, or a block whose (non-nested) return
statements are listed in order. -/
inductive CbBody where
  | jsxElemB (tag : String) (attrs : List Attr) (children : List Child)
  | jsxFragB (children : List Child)
  | blockB (rets : List RetArg)
  | otherB

/-- Is a child a `JSXElement`? -/
def isElemChild : Child → Bool
  | .elem _ _ _ => true
  | _ => false

/-- `getReturnedJSXElements`: the element(s) the callback returns — a
direct element, the element children of a returned fragment, or the
same through `return` statements of a block body. -/
def getReturnedJSXElements : CbBody → List Child
  | .jsxElemB tag attrs children => [.elem tag attrs children]
  | .jsxFragB children => children.filter isElemChild
  | .blockB rets =>
    (rets.map fun r =>
      match r with
      | .retElem tag attrs children => [Child.elem tag attrs children]
      | .retFrag children => children.filter isElemChild
      | .retOther => []).flatten
  | .otherB => []

/-- First `ObjectProperty` of an object literal whose key is an
identifier or string literal equal to `name` (other property kinds and
numeric keys are skipped by the loop annotator's matcher). -/
def findObjProp : List ObjProp → String → Option LitExpr
  | [], _ => none
  | .objProp (.idK k) v :: rest, name =>
    if k == name then some v else findObjProp rest name
  | .objProp (.strK k) v :: rest, name =>
    if k == name then some v else findObjProp rest name
  | .objProp _ _ :: rest, name => findObjProp rest name
  | .otherProp :: rest, name => findObjProp rest name

/-- The segment walk of `getLocationForSegments`: property segments
need an object literal with a matching property, index segments need an
array literal whose element at that index exists and is an expression. -/
def walkSegments : LitExpr → List PropertyAccessSegment → Option LitExpr
  | cur, [] => some cur
  | cur, .property name :: rest =>
    match cur with
    | .objE props _ =>
      match findObjProp props name with
      | none => none
      | some v => walkSegments v rest
    | _ => none
  | cur, .index i :: rest =>
    match cur with
    | .arrE elems _ =>
      match elems.get? i with
      | some (.litEl e) => walkSegments e rest
      | _ => none
    | _ => none

/-- Escape a character for a JSON string body (quote and backslash). -/
def jsonEscapeChar (c : Char) : List Char :=
  if c == '"' || c == '\\' then ['\\', c] else [c]

/-- `JSON.stringify` escaping of a string body. -/
def jsonEscape (s : String) : String :=
  String.mk (s.toList.map jsonEscapeChar).flatten

/-- `formatLocation`: the JSON location descriptor
`\x7b"file":…,"start":"line:col","end":"line:col"\x7d` with 1-based
columns (`loc.start.column + 1`). -/
def formatLocation (filename : String) (loc : Loc) : String :=
  "\x7b\"file\":\"" ++ jsonEscape filename ++ "\",\"start\":\"" ++
    toString loc.startLine ++ ":" ++ toString (loc.startCol + 1) ++
    "\",\"end\":\"" ++ toString loc.endLine ++ ":" ++
    toString (loc.endCol + 1) ++ "\"\x7d"

/-- `getLocationForSegments`: `null` for holes and spread elements;
otherwise walk the segments through the literal and render the reached
node's location (falling back to the element's own location). -/
def getLocationForSegments (filename : String) (el : ColElem)
    (segments : List PropertyAccessSegment) : Option String :=
  match el with
  | .holeEl => none
  | .spreadEl => none
  | .litEl e =>
    match walkSegments e segments with
    | none => none
    | some cur =>
      match litLoc cur with
      | some loc => some (formatLocation filename loc)
      | none =>
        match litLoc e with
        | some loc => some (formatLocation filename loc)
        | none => none

/-- `buildCollectionLocationAttributeValue`: resolve a location for
every array element; fail if none resolve; without an index expression
emit the single available location (failing if several); with an index
expression emit the single location for a one-element array, else a
computed member access into an embedded array of per-element location
strings (with `null` holes for unresolvable elements), indexed by the
loop's index identifier. -/
def buildCollectionLocationAttributeValue (filename : String)
    (info : CollectionSourceInfo) (idxName : Option String)
    (segments : List PropertyAccessSegment) : Option AttributeValueArg :=
  let locations := info.elems.map fun el =>
    getLocationForSegments filename el segments
  let availableLocations := locations.filterMap id
  if availableLocations.length == 0 then none
  else
    match idxName with
    | none =>
      if availableLocations.length == 1 then
        match availableLocations with
        | a :: _ => some (.strA a)
        | [] => none
      else none
    | some idx =>
      if info.elems.length == 1 then
        match availableLocations with
        | a :: _ => some (.strA a)
        | [] => none
      else
        let locationElements := locations.map fun l =>
          match l with
          | some s => Expr.strLit s
          | none => Expr.nullLit
        some (.exprA (.member (.arrayL locationElements)
          (.computedIdentKey idx) true false))

/-- `getDynamicChildInfo`: scan the element's children for the first
expression container referencing an item name; extract its property
segments, aborting (`null`) if extraction fails. -/
def getDynamicChildInfo (children : List Child)
    (itemParamNames : List String) : Option (List PropertyAccessSegment) :=
  match children with
  | [] => none
  | .exprSlot e :: rest =>
    if expressionReferencesNames e itemParamNames then
      extractPropertySegments e itemParamNames
    else getDynamicChildInfo rest itemParamNames
  | _ :: rest => getDynamicChildInfo rest itemParamNames

/-- Parameters shared by the per-element loop annotation. -/
structure LoopParams where
  filename : String
  info : CollectionSourceInfo
  idxName : Option String
  itemParamNames : List String

/-- `annotateDynamicChildrenForElement`: on a native element with a
loop-dependent expression child whose access path and location all
resolve, set `data-children-source`. -/
def annotateDynamicChildrenForElement (p : LoopParams) (tag : String)
    (attrs : List Attr) (children : List Child) : List Attr :=
  if isReactComponent tag then attrs
  else
    match getDynamicChildInfo children p.itemParamNames with
    | none => attrs
    | some segments =>
      match buildCollectionLocationAttributeValue p.filename p.info
          p.idxName segments with
      | none => attrs
      | some value => setOrUpdateAttribute attrs "data-children-source" value

/-- `annotateImgSource`: on an `img` element, for each `src` attribute
holding a loop-dependent expression whose path and location resolve,
set `data-img-source`. -/
def annotateImgSource (p : LoopParams) (tag : String)
    (attrs : List Attr) : List Attr :=
  if tag == "img" then
    let srcExprs := attrs.filterMap fun a =>
      match a with
      | .named n (.exprC e) => if n == "src" then some e else none
      | _ => none
    srcExprs.foldl
      (fun acc e =>
        if expressionReferencesNames e p.itemParamNames then
          match extractPropertySegments e p.itemParamNames with
          | none => acc
          | some segments =>
            match buildCollectionLocationAttributeValue p.filename p.info
                p.idxName segments with
            | none => acc
            | some value => setOrUpdateAttribute acc "data-img-source" value
        else acc)
      attrs
  else attrs

/-- The `annotateElement` body of `applyLoopAnnotations`: composed
components and elements whose subtree references no item name are left
alone; otherwise children-source then img-source annotations are
applied to the opening element. -/
def annotateElementAttrs (p : LoopParams) (tag : String)
    (attrs : List Attr) (children : List Child) : List Attr :=
  if isReactComponent tag then attrs
  else if !elementReferencesParamNames (.elem tag attrs children) p.itemParamNames then
    attrs
  else
    let attrs1 := annotateDynamicChildrenForElement p tag attrs children
    annotateImgSource p tag attrs1

mutual
/-- `applyLoopAnnotations`' traversal: annotate this element and every
descendant element (the source visits the root, then `traverse`s all
nested `JSXElement`s, including through fragments). -/
def applyLoopAnnotChild (p : LoopParams) : Child → Child
  | .elem tag attrs children =>
    .elem tag (annotateElementAttrs p tag attrs children)
      (applyLoopAnnotList p children)
  | .text s => .text s
  | .exprSlot e => .exprSlot e
  | .frag cs => .frag (applyLoopAnnotList p cs)
  | .spread => .spread

/-- The traversal over a child list. -/
def applyLoopAnnotList (p : LoopParams) : List Child → List Child
  | [] => []
  | c :: rest => applyLoopAnnotChild p c :: applyLoopAnnotList p rest
end

/-- `processLoopElement`: skip elements whose subtree references no
item parameter name; otherwise add rendered-by attributes and an editor
id, process the children with wrapping off, and apply the loop
annotations over the (modified) subtree. The `processedLoopElements`
weak set is empty for a single call and is omitted. -/
def processLoopElement (fuel : Nat) (p : LoopParams)
    (c : Child) (ctx : IdGenerationContext) :
    Option (Child × IdGenerationContext) :=
  match c with
  | .elem tag attrs children =>
    if !elementReferencesParamNames (.elem tag attrs children) p.itemParamNames then
      some (.elem tag attrs children, ctx)
    else
      match addRenderedByAttributes fuel attrs p.filename ctx with
      | none => none
      | some (attrs1, ctx1) =>
        match processJSXChildren fuel p.filename false tag children ctx1 with
        | none => none
        | some (children1, ctx2) =>
          some (applyLoopAnnotChild p (.elem tag attrs1 children1), ctx2)
  | c => some (c, ctx)

/-- The per-returned-element loop of `processCollectionRenderingCall`. -/
def processLoopElements (fuel : Nat) (p : LoopParams) :
    List Child → IdGenerationContext →
    Option (List Child × IdGenerationContext)
  | [], ctx => some ([], ctx)
  | c :: rest, ctx =>
    match processLoopElement fuel p c ctx with
    | none => none
    | some (c1, ctx1) =>
      match processLoopElements fuel p rest ctx1 with
      | none => none
      | some (rest1, ctx2) => some (c1 :: rest1, ctx2)

/-- The member callee's object: an identifier or another expression. -/
inductive CalleeObj where
  | objIdent (name : String)
  | objOther

/-- The callee of a call expression, as inspected by
`processCollectionRenderingCall`: a member expression (with its object
shape and, when the property is an identifier, its name) or anything
else. -/
inductive CalleeShape where
  | memberCallee (obj : CalleeObj) (propName : Option String)
  | nonMemberCallee

/-- The call's first argument: an arrow/function expression with
parameters and a body, or something else / absent. -/
inductive CbArg where
  | cbFn (params : List Param) (body : CbBody)
  | cbNonFn
  | cbMissing

/-- One `<collection>.map(callback)` call site as the loop annotator
inspects it: whether a `JSXExpressionContainer` encloses it, its callee
shape, the scope binding of the callee's object identifier, and its
first argument. -/
structure MapCallSite where
  underJSXExpressionContainer : Bool
  callee : CalleeShape
  binding : Option Binding
  callbackArg : CbArg

/-- The callback's returned JSX elements before any processing. -/
def originalElements (site : MapCallSite) : List Child :=
  match site.callbackArg with
  | .cbFn _ body => getReturnedJSXElements body
  | _ => []

/-- `processCollectionRenderingCall`: the guard cascade of the source —
non-empty filename, rendered inside a JSX expression container, a
member callee `<identifier>.map`, a resolvable literal-array collection
binding, a function callback returning at least one JSX element, and at
least one bound item name — then process each returned element. Every
failed guard silently leaves the returned elements untouched. -/
def processCollectionRenderingCall (fuel : Nat) (filename : String)
    (site : MapCallSite) (ctx : IdGenerationContext) :
    Option (List Child × IdGenerationContext) :=
  if filename == "" then some (originalElements site, ctx)
  else if !site.underJSXExpressionContainer then some (originalElements site, ctx)
  else
    match site.callee with
    | .nonMemberCallee => some (originalElements site, ctx)
    | .memberCallee obj propName =>
      if !(propName == some "map") then some (originalElements site, ctx)
      else
        match obj with
        | .objOther => some (originalElements site, ctx)
        | .objIdent sourceName =>
          match resolveCollectionSourceInfo sourceName site.binding with
          | none => some (originalElements site, ctx)
          | some info =>
            match site.callbackArg with
            | .cbNonFn => some (originalElements site, ctx)
            | .cbMissing => some (originalElements site, ctx)
            | .cbFn params body =>
              let returnedElements := getReturnedJSXElements body
              if returnedElements.isEmpty then some (returnedElements, ctx)
              else
                let itemParamNames := collectItemParamNames params
                if itemParamNames.isEmpty then some (returnedElements, ctx)
                else
                  let idxName := getIndexParamExpression params
                  processLoopElements fuel
                    { filename := filename, info := info,
                      idxName := idxName, itemParamNames := itemParamNames }
                    returnedElements ctx

/-! ## Spec-side observers: assigned ids and annotated normal forms

These definitions read back, from an engine output tree, exactly the
elements the engine annotates (roots, and native elements at any depth
reached by the child descent — fragments and expression slots are
passed through and not descended into), together with the predicates
describing an already-annotated tree. -/

/-- The `data-editor-id` string-literal value of an attribute list. -/
def editorIdOf (attrs : List Attr) : Option String :=
  match findAttrValue attrs "data-editor-id" with
  | some (.str s) => some s
  | _ => none

mutual
/-- Editor ids of the elements the child descent annotates: native
elements at any depth (composed components contribute only their
descendants; fragments and slots are not descended into). -/
def assignedIdsChild : Child → List String
  | .elem tag attrs children =>
    (if isReactComponent tag then [] else (editorIdOf attrs).toList) ++
      assignedIdsChildren children
  | .text _ => []
  | .exprSlot _ => []
  | .frag _ => []
  | .spread => []

/-- Editor ids assigned across a child list. -/
def assignedIdsChildren : List Child → List String
  | [] => []
  | c :: rest => assignedIdsChild c ++ assignedIdsChildren rest
end

/-- Ids assigned across fragment roots and their subtrees. -/
def assignedIdsFragRoots (f : String) : List Child → List String
  | [] => []
  | .elem _ attrs children :: rest =>
    (if f == "" then [] else (editorIdOf attrs).toList) ++
      assignedIdsChildren children ++ assignedIdsFragRoots f rest
  | _ :: rest => assignedIdsFragRoots f rest

/-- Editor ids the component pass assigns in a body: the root's id
(only when a filename is present — `addEditorMetadata` is a no-op on an
empty filename) plus the descent's ids. -/
def assignedIdsBody (f : String) : CompBody → List String
  | .elemB _ attrs children =>
    (if f == "" then [] else (editorIdOf attrs).toList) ++
      assignedIdsChildren children
  | .fragB children => assignedIdsFragRoots f children
  | .otherB => []

/-- Editor ids assigned across all component definitions of a file. -/
def assignedIdsFile (f : String) : List ComponentDef → List String
  | [] => []
  | d :: rest => assignedIdsBody f d.body ++ assignedIdsFile f rest

mutual
/-- An already-annotated child in a position with the given parent
wrap flag: native elements carry `data-rendered-by` = filename and a
non-empty, non-whitespace string `data-editor-id`, and their children
are annotated with wrapping off; composed components have their
children annotated with wrapping on; under wrapping, text is
whitespace-only and expression slots are not bare identifiers. -/
def Annotated (f : String) (wrap : Bool) : Child → Prop
  | .elem tag attrs children =>
    if isReactComponent tag then AnnotatedList f true children
    else
      findAttrValue attrs "data-rendered-by" = some (.str f) ∧
      (∃ s, findAttrValue attrs "data-editor-id" = some (.str s) ∧
        s ≠ "" ∧ hasNonWhitespace s = true) ∧
      AnnotatedList f false children
  | .text s => wrap = true → hasNonWhitespace s = false
  | .exprSlot e => wrap = true → ∀ n, e ≠ .ident n
  | .frag _ => True
  | .spread => True

/-- `Annotated` over a child list. -/
def AnnotatedList (f : String) (wrap : Bool) : List Child → Prop
  | [] => True
  | c :: rest => Annotated f wrap c ∧ AnnotatedList f wrap rest
end

/-- Root attributes in annotated form: with a filename present, the
component file and name are set and the editor id is a non-empty,
non-whitespace string. -/
def AnnotatedRootAttrs (f componentName : String) (attrs : List Attr) : Prop :=
  f ≠ "" →
    findAttrValue attrs "data-component-file" = some (.str f) ∧
    findAttrValue attrs "data-component-name" = some (.str componentName) ∧
    ∃ s, findAttrValue attrs "data-editor-id" = some (.str s) ∧
      s ≠ "" ∧ hasNonWhitespace s = true

/-- Annotated form of fragment roots. -/
def AnnotatedFragRoots (f componentName : String) : List Child → Prop
  | [] => True
  | .elem _ attrs children :: rest =>
    AnnotatedRootAttrs f componentName attrs ∧ AnnotatedList f false children ∧
      AnnotatedFragRoots f componentName rest
  | _ :: rest => AnnotatedFragRoots f componentName rest

/-- An already-annotated component body. -/
def AnnotatedBody (f componentName : String) : CompBody → Prop
  | .elemB _ attrs children =>
    AnnotatedRootAttrs f componentName attrs ∧ AnnotatedList f false children
  | .fragB children => AnnotatedFragRoots f componentName children
  | .otherB => True

/-- Root-position editor ids of a fragment's element children
(excluding descendants), exactly the ids the first fragment pass
assigns when a filename is present. -/
def fragRootIdsOnly (f : String) : List Child → List String
  | [] => []
  | .elem _ attrs _ :: rest =>
    (if f == "" then [] else (editorIdOf attrs).toList) ++ fragRootIdsOnly f rest
  | _ :: rest => fragRootIdsOnly f rest

/-- Descendant editor ids under a fragment's element children
(excluding the root positions), exactly the ids the second fragment
pass assigns. -/
def fragDescIds : List Child → List String
  | [] => []
  | .elem _ _ children :: rest => assignedIdsChildren children ++ fragDescIds rest
  | _ :: rest => fragDescIds rest

/-- Every element child of a fragment carries annotated root
attributes. -/
def RootAttrsAnnotated (f componentName : String) : List Child → Prop
  | [] => True
  | .elem _ attrs _ :: rest =>
    AnnotatedRootAttrs f componentName attrs ∧
      RootAttrsAnnotated f componentName rest
  | _ :: rest => RootAttrsAnnotated f componentName rest

/-- The annotated normal form of a whole file: every component body is
in annotated form and its assigned ids are mutually distinct. -/
def AnnotatedFile (f : String) : List ComponentDef → Prop
  | [] => True
  | d :: rest =>
    AnnotatedBody f d.name d.body ∧ (assignedIdsBody f d.body).Nodup ∧
      AnnotatedFile f rest

/-! ## The ambient effect environment

The compiler host runs the plugin in an environment offering a wall
clock and a random-number source; the superseded legacy id generator
(`generateUniqueId` in the earliest variant, built from `Date.now()`
and `Math.random()`) reads both, while the mature engine's
`generateNewId` reads neither — its source touches only `crypto`
hashing of the positional seed. Determinism across runs is exactly
invariance in this environment argument. -/

/-- The ambient effects available to the plugin process: current time
and a stream of random values. -/
structure EngineEnv where
  now : Nat
  randomSeq : Nat → Nat

/-- The whole-file annotation as run by the host inside an ambient
environment. The mature engine consults neither `env.now` nor
`env.randomSeq` (its source references only `crypto`), so the
environment argument is not used on the right-hand side — that is the
faithful embedding of its effect footprint. -/
def annotateFileInEnv (_env : EngineEnv) (fuel : Nat) (filename : String)
    (defs : List ComponentDef) : Option (List ComponentDef) :=
  annotateFile fuel filename defs

/-- A lowercase hexadecimal digit character. -/
def isLowerHexDigit (c : Char) : Bool :=
  (decide ('0' ≤ c) && decide (c ≤ '9')) ||
    (decide ('a' ≤ c) && decide (c ≤ 'f'))

/-! ## Basic lemmas: hex rendering, attribute plumbing -/

theorem hexDigit_not_whitespace (n : Nat) (h : n < 16) :
    (hexDigit n).isWhitespace = false := by
  interval_cases n <;> decide

theorem hexDigit_isLowerHex (n : Nat) (h : n < 16) :
    isLowerHexDigit (hexDigit n) = true := by
  interval_cases n <;> decide

theorem md5Bytes_length (msg : List Nat) : (md5Bytes msg).length = 16 := by
  unfold md5Bytes
  obtain ⟨a, b, c, d⟩ :=
    (splitBlocks ((md5Pad msg).length / 64) (md5Pad msg)).foldl md5Block
      (0x67452301, 0xefcdab89, 0x98badcfe, 0x10325476)
  simp [wordLEBytes]

theorem flatten_map_hexByte_length (l : List Nat) :
    ((l.map hexByte).flatten).length = 2 * l.length := by
  induction l with
  | nil => simp
  | cons b rest ih => simp [hexByte, ih]; ring

theorem md5hex12_length (s : String) : (md5hex12 s).length = 12 := by
  have h16 := md5Bytes_length (strBytes s)
  have h6 : ((md5Bytes (strBytes s)).take 6).length = 6 := by
    rw [List.length_take, h16]
    decide
  rw [md5hex12]
  show (((md5Bytes (strBytes s)).take 6).map hexByte).flatten.length = 12
  rw [flatten_map_hexByte_length, h6]

theorem md5hex12_chars (s : String) (c : Char)
    (hc : c ∈ (md5hex12 s).toList) : isLowerHexDigit c = true := by
  simp only [md5hex12, String.toList] at hc
  simp only [List.mem_flatten, List.mem_map] at hc
  obtain ⟨l, ⟨b, _, rfl⟩, hcl⟩ := hc
  simp only [hexByte, List.mem_cons, List.mem_singleton] at hcl
  rcases hcl with rfl | rfl | h
  · exact hexDigit_isLowerHex _ (Nat.mod_lt _ (by norm_num))
  · exact hexDigit_isLowerHex _ (Nat.mod_lt _ (by norm_num))
  · cases h

theorem md5hex12_hasNonWhitespace (s : String) :
    hasNonWhitespace (md5hex12 s) = true := by
  have h16 := md5Bytes_length (strBytes s)
  obtain ⟨b, rest, hbr⟩ : ∃ b rest, md5Bytes (strBytes s) = b :: rest := by
    cases h : md5Bytes (strBytes s) with
    | nil => rw [h] at h16; simp at h16
    | cons b rest => exact ⟨b, rest, rfl⟩
  simp only [md5hex12, hbr, hasNonWhitespace, String.toList]
  simp [List.take_succ_cons, hexByte, List.any_cons,
    hexDigit_not_whitespace _ (Nat.mod_lt _ (by norm_num : (0:Nat) < 16))]

theorem md5hex12_ne_empty (s : String) : md5hex12 s ≠ "" := by
  intro h
  have := md5hex12_length s
  rw [h] at this
  simp [String.length] at this

theorem findAttrValue_setAttrNorm_self (attrs : List Attr) (name : String)
    (v : AttrValue) : findAttrValue (setAttrNorm attrs name v) name = some v := by
  induction attrs with
  | nil => simp [setAttrNorm, findAttrValue]
  | cons a rest ih =>
    cases a with
    | named n w =>
      by_cases h : (n == name) = true
      · simp [setAttrNorm, findAttrValue, h]
      · simp only [Bool.not_eq_true] at h
        simp [setAttrNorm, findAttrValue, h, ih]
    | spreadA => simp [setAttrNorm, findAttrValue, ih]

theorem findAttrValue_setAttrNorm_other (attrs : List Attr)
    (name other : String) (v : AttrValue) (h : other ≠ name) :
    findAttrValue (setAttrNorm attrs name v) other = findAttrValue attrs other := by
  induction attrs with
  | nil => simp [setAttrNorm, findAttrValue, beq_iff_eq, Ne.symm h]
  | cons a rest ih =>
    cases a with
    | named n w =>
      by_cases hn : n = name
      · subst hn
        simp [setAttrNorm, findAttrValue, beq_iff_eq, Ne.symm h]
      · by_cases hno : n = other
        · subst hno
          simp [setAttrNorm, findAttrValue, beq_iff_eq, hn]
        · simp [setAttrNorm, findAttrValue, beq_iff_eq, hn, hno, ih]
    | spreadA => simp [setAttrNorm, findAttrValue, ih]

theorem setAttrNorm_eq_self (attrs : List Attr) (name : String) (v : AttrValue)
    (h : findAttrValue attrs name = some v) : setAttrNorm attrs name v = attrs := by
  induction attrs with
  | nil => simp [findAttrValue] at h
  | cons a rest ih =>
    cases a with
    | named n w =>
      by_cases hn : (n == name) = true
      · have hv : w = v := by simpa [findAttrValue, hn] using h
        have he : n = name := by simpa using hn
        subst he hv
        simp [setAttrNorm]
      · simp only [Bool.not_eq_true] at hn
        simp only [findAttrValue, hn] at h
        simp [setAttrNorm, hn, ih h]
    | spreadA =>
      simp only [findAttrValue] at h
      simp [setAttrNorm, ih h]

/-! ## Specifications of the identifier assigner -/

theorem generateNewId_spec (fuel : Nat) :
    ∀ (ctx : IdGenerationContext) (id : String) (ctx1 : IdGenerationContext),
    generateNewId fuel ctx = some (id, ctx1) →
    id ∉ ctx.usedIds ∧
    ctx1.usedIds = ctx.usedIds ∧
    ctx1.filename = ctx.filename ∧
    ctx1.elementPath = ctx.elementPath ∧
    ∃ k, ctx.elementCounter ≤ k ∧ ctx1.elementCounter = k + 1 ∧
      id = md5hex12 (seedString ctx.elementPath k ctx.filename) := by
  induction fuel with
  | zero => intro ctx id ctx1 h; simp [generateNewId] at h
  | succ fuel ih =>
    intro ctx id ctx1 h
    rw [generateNewId] at h
    by_cases hc : ctx.usedIds.contains
        (md5hex12 (seedString ctx.elementPath ctx.elementCounter ctx.filename)) = true
    · rw [if_pos hc] at h
      obtain ⟨h1, h2, h3, h4, k, hk1, hk2, hk3⟩ := ih _ _ _ h
      refine ⟨by simpa using h1, by simpa using h2, by simpa using h3,
        by simpa using h4, k, ?_, hk2, by simpa using hk3⟩
      simp only at hk1
      omega
    · rw [if_neg hc] at h
      obtain ⟨rfl, rfl⟩ := Prod.mk.injEq .. ▸ Option.some.injEq .. ▸ h
      refine ⟨?_, rfl, rfl, rfl, ctx.elementCounter, le_refl _, rfl, rfl⟩
      intro hmem
      exact hc (by simpa using hmem)

theorem chooseElementId_spec (fuel : Nat) (attrs : List Attr)
    (ctx : IdGenerationContext) (id : String) (ctxa : IdGenerationContext)
    (h : chooseElementId fuel attrs ctx = some (id, ctxa)) :
    id ∉ ctx.usedIds ∧
    id ≠ "" ∧
    hasNonWhitespace id = true ∧
    ctxa.usedIds = ctx.usedIds ∧
    ctxa.filename = ctx.filename ∧
    ctxa.elementPath = ctx.elementPath := by
  have gen_case :
      generateNewId fuel ctx = some (id, ctxa) →
      id ∉ ctx.usedIds ∧ id ≠ "" ∧ hasNonWhitespace id = true ∧
      ctxa.usedIds = ctx.usedIds ∧ ctxa.filename = ctx.filename ∧
      ctxa.elementPath = ctx.elementPath := by
    intro hg
    obtain ⟨h1, h2, h3, h4, k, _, _, hkid⟩ :=
      generateNewId_spec fuel ctx id ctxa hg
    exact ⟨h1, hkid ▸ md5hex12_ne_empty _, hkid ▸ md5hex12_hasNonWhitespace _,
      h2, h3, h4⟩
  rw [chooseElementId] at h
  split at h
  · rename_i s hfind
    split at h
    · rename_i hadopt
      obtain ⟨rfl, rfl⟩ : s = id ∧ ctx = ctxa := by simpa using h
      rw [adoptable] at hadopt
      simp only [Bool.and_eq_true, Bool.not_eq_true'] at hadopt
      obtain ⟨⟨hne, hnw⟩, hnc⟩ := hadopt
      exact ⟨by simpa using hnc, by simpa using hne, hnw, rfl, rfl, rfl⟩
    · exact gen_case h
  · exact gen_case h

theorem assignElementId_spec (fuel : Nat) (attrs : List Attr)
    (ctx : IdGenerationContext) (id : String) (attrs1 : List Attr)
    (ctx1 : IdGenerationContext)
    (h : assignElementId fuel attrs ctx = some (id, attrs1, ctx1)) :
    attrs1 = setAttrNorm attrs "data-editor-id" (.str id) ∧
    id ∉ ctx.usedIds ∧
    id ≠ "" ∧
    hasNonWhitespace id = true ∧
    ctx1.usedIds = id :: ctx.usedIds ∧
    ctx1.filename = ctx.filename ∧
    ctx1.elementPath = ctx.elementPath := by
  rw [assignElementId] at h
  rcases hch : chooseElementId fuel attrs ctx with _ | ⟨cid, ctxa⟩
  · rw [hch] at h; simp at h
  · rw [hch] at h
    simp only [Option.some.injEq, Prod.mk.injEq] at h
    obtain ⟨rfl, rfl, rfl⟩ := h
    obtain ⟨hfresh, hne, hnw, hused, hfile, hpath⟩ :=
      chooseElementId_spec fuel attrs ctx cid ctxa hch
    have hins : insertId cid ctxa.usedIds = cid :: ctx.usedIds := by
      rw [insertId, hused, if_neg]
      simpa using hfresh
    exact ⟨rfl, hfresh, hne, hnw, by simpa using hins, by simpa using hfile,
      by simpa using hpath⟩

theorem addRenderedByAttributes_spec (fuel : Nat) (attrs : List Attr)
    (f : String) (ctx : IdGenerationContext) (attrs2 : List Attr)
    (ctx1 : IdGenerationContext)
    (h : addRenderedByAttributes fuel attrs f ctx = some (attrs2, ctx1)) :
    ∃ id,
      findAttrValue attrs2 "data-rendered-by" = some (.str f) ∧
      findAttrValue attrs2 "data-editor-id" = some (.str id) ∧
      editorIdOf attrs2 = some id ∧
      id ∉ ctx.usedIds ∧ id ≠ "" ∧ hasNonWhitespace id = true ∧
      ctx1.usedIds = id :: ctx.usedIds ∧
      ctx1.filename = ctx.filename ∧
      ctx1.elementPath = ctx.elementPath := by
  rw [addRenderedByAttributes] at h
  rcases ha : assignElementId fuel
      (setOrUpdateAttribute attrs "data-rendered-by" (.strA f)) ctx
    with _ | ⟨idx, attrsx, ctxx⟩
  · rw [ha] at h; simp at h
  · rw [ha] at h
    have hx : attrsx = attrs2 ∧ ctxx = ctx1 := by simpa using h
    obtain ⟨rfl, rfl⟩ := hx
    obtain ⟨hset, hfresh, hne, hnw, hused, hfile, hpath⟩ :=
      assignElementId_spec _ _ _ _ _ _ ha
    have hei : findAttrValue attrsx "data-editor-id" = some (.str idx) := by
      rw [hset]
      exact findAttrValue_setAttrNorm_self _ _ _
    have hrb : findAttrValue attrsx "data-rendered-by" = some (.str f) := by
      rw [hset, findAttrValue_setAttrNorm_other _ _ _ _ (by decide)]
      exact findAttrValue_setAttrNorm_self attrs "data-rendered-by" (.str f)
    exact ⟨idx, hrb, hei, by rw [editorIdOf, hei], hfresh, hne, hnw, hused,
      hfile, hpath⟩

theorem addComponentAttributes_spec (fuel : Nat) (attrs : List Attr)
    (f componentName : String) (ctx : IdGenerationContext)
    (attrs2 : List Attr) (ctx1 : IdGenerationContext)
    (h : addComponentAttributes fuel attrs f componentName ctx = some (attrs2, ctx1)) :
    ∃ id,
      findAttrValue attrs2 "data-component-file" = some (.str f) ∧
      findAttrValue attrs2 "data-component-name" = some (.str componentName) ∧
      findAttrValue attrs2 "data-editor-id" = some (.str id) ∧
      editorIdOf attrs2 = some id ∧
      id ∉ ctx.usedIds ∧ id ≠ "" ∧ hasNonWhitespace id = true ∧
      ctx1.usedIds = id :: ctx.usedIds ∧
      ctx1.filename = ctx.filename ∧
      ctx1.elementPath = ctx.elementPath := by
  rw [addComponentAttributes] at h
  rcases ha : assignElementId fuel
      (setOrUpdateAttribute
        (setOrUpdateAttribute attrs "data-component-file" (.strA f))
        "data-component-name" (.strA componentName)) ctx
    with _ | ⟨idx, attrsx, ctxx⟩
  · rw [ha] at h; simp at h
  · rw [ha] at h
    have hx : attrsx = attrs2 ∧ ctxx = ctx1 := by simpa using h
    obtain ⟨rfl, rfl⟩ := hx
    obtain ⟨hset, hfresh, hne, hnw, hused, hfile, hpath⟩ :=
      assignElementId_spec _ _ _ _ _ _ ha
    have hei : findAttrValue attrsx "data-editor-id" = some (.str idx) := by
      rw [hset]
      exact findAttrValue_setAttrNorm_self _ _ _
    have hcf : findAttrValue attrsx "data-component-file" = some (.str f) := by
      rw [hset, findAttrValue_setAttrNorm_other _ _ _ _ (by decide)]
      rw [setOrUpdateAttribute, findAttrValue_setAttrNorm_other _ _ _ _ (by decide)]
      exact findAttrValue_setAttrNorm_self attrs "data-component-file" (.str f)
    have hcn : findAttrValue attrsx "data-component-name" =
        some (.str componentName) := by
      rw [hset, findAttrValue_setAttrNorm_other _ _ _ _ (by decide)]
      exact findAttrValue_setAttrNorm_self _ "data-component-name"
        (.str componentName)
    exact ⟨idx, hcf, hcn, hei, by rw [editorIdOf, hei], hfresh, hne, hnw,
      hused, hfile, hpath⟩

/-! ## A mutual induction principle for `Child` and `List Child` -/

theorem child_mutual_induction (P : Child → Prop) (Q : List Child → Prop)
    (helem : ∀ tag attrs children, Q children → P (.elem tag attrs children))
    (htext : ∀ s, P (.text s))
    (hexpr : ∀ e, P (.exprSlot e))
    (hfrag : ∀ cs, Q cs → P (.frag cs))
    (hspread : P .spread)
    (hnil : Q [])
    (hcons : ∀ c rest, P c → Q rest → Q (c :: rest)) :
    (∀ c, P c) ∧ (∀ l, Q l) := by
  have key : ∀ n : Nat,
      (∀ c : Child, sizeOf c ≤ n → P c) ∧
      (∀ l : List Child, sizeOf l ≤ n → Q l) := by
    intro n
    induction n with
    | zero =>
      constructor
      · intro c hc
        exfalso
        cases c <;> simp at hc
      · intro l hl
        exfalso
        cases l <;> simp at hl
    | succ n ih =>
      obtain ⟨ihc, ihl⟩ := ih
      constructor
      · intro c hc
        cases c with
        | elem tag attrs children =>
          refine helem _ _ _ (ihl children ?_)
          simp at hc
          omega
        | text s => exact htext s
        | exprSlot e => exact hexpr e
        | frag cs =>
          refine hfrag _ (ihl cs ?_)
          simp at hc
          omega
        | spread => exact hspread
      · intro l hl
        cases l with
        | nil => exact hnil
        | cons c rest =>
          simp at hl
          exact hcons c rest (ihc c (by omega)) (ihl rest (by omega))
  exact ⟨fun c => (key (sizeOf c)).1 c le_rfl,
    fun l => (key (sizeOf l)).2 l le_rfl⟩

/-! ## The first-run postcondition of the child descent

Processing a child (or child list) extends the used-id set, assigns
ids that are fresh, mutually distinct and recorded, and leaves the
output in annotated normal form. -/

theorem processChild_run1 (fuel : Nat) (f : String) :
    (∀ c : Child, ∀ (wrap : Bool) (ctx : IdGenerationContext) (c' : Child)
      (ctx' : IdGenerationContext),
      processChild fuel f wrap c ctx = some (c', ctx') →
      (∀ x ∈ ctx.usedIds, x ∈ ctx'.usedIds) ∧
      (∀ id ∈ assignedIdsChild c', id ∉ ctx.usedIds ∧ id ∈ ctx'.usedIds) ∧
      (assignedIdsChild c').Nodup ∧
      Annotated f wrap c') ∧
    (∀ l : List Child, ∀ (wrap : Bool) (ctx : IdGenerationContext)
      (l' : List Child) (ctx' : IdGenerationContext),
      processChildList fuel f wrap l ctx = some (l', ctx') →
      (∀ x ∈ ctx.usedIds, x ∈ ctx'.usedIds) ∧
      (∀ id ∈ assignedIdsChildren l', id ∉ ctx.usedIds ∧ id ∈ ctx'.usedIds) ∧
      (assignedIdsChildren l').Nodup ∧
      AnnotatedList f wrap l') := by
  have span_case : ∀ (ctx ctx1 : IdGenerationContext) (spanAttrs : List Attr)
      (inner : Child),
      assignedIdsChild inner = [] →
      Annotated f false inner →
      (∀ (attrs0 : List Attr),
        addRenderedByAttributes fuel attrs0 f ctx = some (spanAttrs, ctx1) →
      (∀ x ∈ ctx.usedIds, x ∈ ctx1.usedIds) ∧
      (∀ id2 ∈ assignedIdsChild (.elem "span" spanAttrs [inner]),
        id2 ∉ ctx.usedIds ∧ id2 ∈ ctx1.usedIds) ∧
      (assignedIdsChild (.elem "span" spanAttrs [inner])).Nodup ∧
      Annotated f true (.elem "span" spanAttrs [inner])) := by
    intro ctx ctx1 spanAttrs inner hinner hanninner attrs0 ha
    obtain ⟨id, hrb, hei, heio, hfresh, hne, hnw, hused, _, _⟩ :=
      addRenderedByAttributes_spec _ _ _ _ _ _ ha
    have hspan : isReactComponent "span" = false := by decide
    refine ⟨?_, ?_, ?_, ?_⟩
    · intro x hx; rw [hused]; exact List.mem_cons_of_mem _ hx
    · intro id2 hid2
      simp [assignedIdsChild, assignedIdsChildren, hspan, heio, hinner] at hid2
      subst hid2
      exact ⟨hfresh, by rw [hused]; exact List.mem_cons_self _ _⟩
    · simp [assignedIdsChild, assignedIdsChildren, hspan, heio, hinner]
    · simp only [Annotated, hspan, if_neg (by simp : ¬(false = true))]
      exact ⟨hrb, ⟨id, hei, hne, hnw⟩,
        by simp [AnnotatedList, hanninner]⟩
  apply child_mutual_induction
  case htext =>
    intro s wrap ctx c' ctx' h
    rw [processChild] at h
    split at h
    · rename_i hcond
      split at h
      · exact absurd h (by simp)
      · rename_i spanAttrs ctx1 ha
        have hx : Child.elem "span" spanAttrs [.text s] = c' ∧ ctx1 = ctx' := by
          simpa using h
        obtain ⟨rfl, rfl⟩ := hx
        have hwrap : wrap = true := by
          rcases Bool.and_eq_true .. ▸ hcond with ⟨_, hw⟩
          exact hw
        subst hwrap
        exact span_case _ _ _ _ (by simp [assignedIdsChild])
          (by simp [Annotated]) _ ha
    · rename_i hcond
      have hx : Child.text s = c' ∧ ctx = ctx' := by simpa using h
      obtain ⟨rfl, rfl⟩ := hx
      refine ⟨fun x hx => hx, ?_, ?_, ?_⟩
      · intro id hid; simp [assignedIdsChild] at hid
      · simp [assignedIdsChild]
      · simp only [Annotated]
        intro hw
        subst hw
        simpa using hcond
  case hexpr =>
    intro e wrap ctx c' ctx' h
    have unchanged :
        ∀ e1 : Expr, Child.exprSlot e1 = c' ∧ ctx = ctx' →
        (∀ n : String, e1 = .ident n → wrap = false) →
        (∀ x ∈ ctx.usedIds, x ∈ ctx'.usedIds) ∧
        (∀ id ∈ assignedIdsChild c', id ∉ ctx.usedIds ∧ id ∈ ctx'.usedIds) ∧
        (assignedIdsChild c').Nodup ∧ Annotated f wrap c' := by
      intro e1 hx hni
      obtain ⟨rfl, rfl⟩ := hx
      refine ⟨fun x hx => hx, by simp [assignedIdsChild],
        by simp [assignedIdsChild], ?_⟩
      simp only [Annotated]
      intro hw n hn
      subst hn
      have := hni n rfl
      rw [this] at hw
      cases hw
    cases e with
    | ident n =>
      rw [processChild] at h
      split at h
      · rename_i hwrap
        split at h
        · exact absurd h (by simp)
        · rename_i spanAttrs ctx1 ha
          have hx : Child.elem "span" spanAttrs [.exprSlot (.ident n)] = c' ∧
              ctx1 = ctx' := by simpa using h
          obtain ⟨rfl, rfl⟩ := hx
          exact span_case _ _ _ _ (by simp [assignedIdsChild])
            (by simp [Annotated]) _ ha
      · rename_i hwrap
        have hwf : wrap = false := by simpa using hwrap
        exact unchanged (.ident n) (by simpa using h) (fun _ _ => hwf)
    | member obj key computed opt =>
      rw [processChild] at h
      · split at h <;>
          exact unchanged (.member obj key computed opt) (by simpa using h)
            (fun n hn => by cases hn)
      · intro n hn; cases hn
    | strLit t =>
      rw [processChild] at h
      · split at h <;>
          exact unchanged (.strLit t) (by simpa using h) (fun n hn => by cases hn)
      · intro n hn; cases hn
    | nullLit =>
      rw [processChild] at h
      · split at h <;>
          exact unchanged .nullLit (by simpa using h) (fun n hn => by cases hn)
      · intro n hn; cases hn
    | arrayL es =>
      rw [processChild] at h
      · split at h <;>
          exact unchanged (.arrayL es) (by simpa using h) (fun n hn => by cases hn)
      · intro n hn; cases hn
    | wrapped e1 =>
      rw [processChild] at h
      · split at h <;>
          exact unchanged (.wrapped e1) (by simpa using h) (fun n hn => by cases hn)
      · intro n hn; cases hn
    | opaqueE refs =>
      rw [processChild] at h
      · split at h <;>
          exact unchanged (.opaqueE refs) (by simpa using h) (fun n hn => by cases hn)
      · intro n hn; cases hn
  case hfrag =>
    intro cs _ wrap ctx c' ctx' h
    rw [processChild] at h
    have hx : Child.frag cs = c' ∧ ctx = ctx' := by simpa using h
    obtain ⟨rfl, rfl⟩ := hx
    exact ⟨fun x hx => hx, by simp [assignedIdsChild], by simp [assignedIdsChild],
      by simp [Annotated]⟩
  case hspread =>
    intro wrap ctx c' ctx' h
    rw [processChild] at h
    have hx : Child.spread = c' ∧ ctx = ctx' := by simpa using h
    obtain ⟨rfl, rfl⟩ := hx
    exact ⟨fun x hx => hx, by simp [assignedIdsChild], by simp [assignedIdsChild],
      by simp [Annotated]⟩
  case hnil =>
    intro wrap ctx l' ctx' h
    rw [processChildList] at h
    have hx : ([] : List Child) = l' ∧ ctx = ctx' := by simpa using h
    obtain ⟨rfl, rfl⟩ := hx
    exact ⟨fun x hx => hx, by simp [assignedIdsChildren],
      by simp [assignedIdsChildren], by simp [AnnotatedList]⟩
  case hcons =>
    intro c rest ihc ihrest wrap ctx l' ctx' h
    rw [processChildList] at h
    split at h
    · exact absurd h (by simp)
    · rename_i c2 ctx1 hc
      split at h
      · exact absurd h (by simp)
      · rename_i rest2 ctx2 hr
        have hx : c2 :: rest2 = l' ∧ ctx2 = ctx' := by simpa using h
        obtain ⟨rfl, rfl⟩ := hx
        obtain ⟨mono1, fresh1, nodup1, ann1⟩ := ihc wrap ctx c2 ctx1 hc
        obtain ⟨mono2, fresh2, nodup2, ann2⟩ := ihrest wrap ctx1 rest2 ctx2 hr
        refine ⟨fun x hx => mono2 x (mono1 x hx), ?_, ?_, ann1, ann2⟩
        · intro id hid
          rw [assignedIdsChildren, List.mem_append] at hid
          rcases hid with hid | hid
          · obtain ⟨hf, hm⟩ := fresh1 id hid
            exact ⟨hf, mono2 id hm⟩
          · obtain ⟨hf, hm⟩ := fresh2 id hid
            exact ⟨fun hmem => hf (mono1 id hmem), hm⟩
        · rw [assignedIdsChildren]
          rw [List.nodup_append]
          refine ⟨nodup1, nodup2, ?_⟩
          intro a ha1 ha2
          obtain ⟨_, hm1⟩ := fresh1 a ha1
          obtain ⟨hf2, _⟩ := fresh2 a ha2
          exact hf2 hm1
  case helem =>
    intro tag attrs children ihl wrap ctx c' ctx' h
    rw [processChild] at h
    split at h
    · rename_i hrc
      split at h
      · exact absurd h (by simp)
      · rename_i children2 ctx2 hp
        have hx : Child.elem tag attrs children2 = c' ∧
            ({ ctx2 with elementPath := ctx.elementPath } : IdGenerationContext) = ctx' := by
          simpa using h
        obtain ⟨rfl, rfl⟩ := hx
        obtain ⟨mono, fresh, nodup, ann⟩ := ihl true _ children2 ctx2 hp
        refine ⟨fun x hx => mono x hx, ?_, ?_, ?_⟩
        · intro id hid
          rw [assignedIdsChild, if_pos hrc] at hid
          simp only [List.nil_append] at hid
          exact fresh id hid
        · rw [assignedIdsChild, if_pos hrc]
          simpa using nodup
        · rw [Annotated, if_pos hrc]
          exact ann
    · rename_i hrc
      split at h
      · exact absurd h (by simp)
      · rename_i attrs2 ctx1 ha
        split at h
        · exact absurd h (by simp)
        · rename_i children2 ctx2 hp
          have hx : Child.elem tag attrs2 children2 = c' ∧
              ({ ctx2 with elementPath := ctx1.elementPath } : IdGenerationContext) = ctx' := by
            simpa using h
          obtain ⟨rfl, rfl⟩ := hx
          obtain ⟨id, hrb, hei, heio, hfresh, hne, hnw, hused, _, _⟩ :=
            addRenderedByAttributes_spec _ _ _ _ _ _ ha
          obtain ⟨mono, fresh, nodup, ann⟩ := ihl false _ children2 ctx2 hp
          have hrcF : isReactComponent tag = false := by simpa using hrc
          have hmono1 : ∀ x ∈ ctx.usedIds, x ∈ ctx1.usedIds := by
            intro x hx
            rw [hused]
            exact List.mem_cons_of_mem _ hx
          refine ⟨?_, ?_, ?_, ?_⟩
          · intro x hx
            exact mono x (hmono1 x hx)
          · intro id2 hid2
            rw [assignedIdsChild, if_neg (by simp [hrcF])] at hid2
            rw [heio] at hid2
            simp only [Option.toList_some, List.cons_append, List.nil_append,
              List.mem_cons] at hid2
            rcases hid2 with rfl | hid2
            · refine ⟨hfresh, mono id2 ?_⟩
              rw [hused]
              exact List.mem_cons_self _ _
            · obtain ⟨hf, hm⟩ := fresh id2 hid2
              refine ⟨fun hmem => hf ?_, hm⟩
              simpa using hmono1 id2 hmem
          · rw [assignedIdsChild, if_neg (by simp [hrcF])]
            rw [heio]
            simp only [Option.toList_some, List.cons_append, List.nil_append]
            rw [List.nodup_cons]
            refine ⟨?_, nodup⟩
            intro hmem
            obtain ⟨hf, _⟩ := fresh id hmem
            apply hf
            show id ∈ ({ ctx1 with elementPath := ctx1.elementPath ++ [tag] } :
              IdGenerationContext).usedIds
            rw [show ({ ctx1 with elementPath := ctx1.elementPath ++ [tag] } :
              IdGenerationContext).usedIds = ctx1.usedIds from rfl, hused]
            exact List.mem_cons_self _ _
          · rw [Annotated, if_neg (by simp [hrcF])]
            exact ⟨hrb, ⟨id, hei, hne, hnw⟩, ann⟩

/-! ## Adoption lemmas: revisiting an annotated element re-adopts its id -/

theorem chooseElementId_adopt (fuel : Nat) (attrs : List Attr)
    (ctx : IdGenerationContext) (s : String)
    (hei : findAttrValue attrs "data-editor-id" = some (.str s))
    (hne : s ≠ "") (hnw : hasNonWhitespace s = true)
    (hfresh : s ∉ ctx.usedIds) :
    chooseElementId fuel attrs ctx = some (s, ctx) := by
  have hc : ctx.usedIds.contains s = false := by simpa using hfresh
  have hadopt : adoptable ctx s = true := by
    rw [adoptable]
    simp [hne, hnw, hfresh]
  rw [chooseElementId, hei]
  dsimp only []
  rw [if_pos hadopt]

theorem assignElementId_adopt (fuel : Nat) (attrs : List Attr)
    (ctx : IdGenerationContext) (s : String)
    (hei : findAttrValue attrs "data-editor-id" = some (.str s))
    (hne : s ≠ "") (hnw : hasNonWhitespace s = true)
    (hfresh : s ∉ ctx.usedIds) :
    assignElementId fuel attrs ctx =
      some (s, attrs, { ctx with usedIds := s :: ctx.usedIds }) := by
  have hc : ctx.usedIds.contains s = false := by simpa using hfresh
  rw [assignElementId, chooseElementId_adopt fuel attrs ctx s hei hne hnw hfresh]
  dsimp only []
  rw [show setOrUpdateAttribute attrs "data-editor-id" (.strA s) = attrs from
    setAttrNorm_eq_self _ _ _ hei]
  rw [insertId, if_neg (by simpa using hfresh)]

theorem addRenderedByAttributes_adopt (fuel : Nat) (attrs : List Attr)
    (f : String) (ctx : IdGenerationContext) (s : String)
    (hrb : findAttrValue attrs "data-rendered-by" = some (.str f))
    (hei : findAttrValue attrs "data-editor-id" = some (.str s))
    (hne : s ≠ "") (hnw : hasNonWhitespace s = true)
    (hfresh : s ∉ ctx.usedIds) :
    addRenderedByAttributes fuel attrs f ctx =
      some (attrs, { ctx with usedIds := s :: ctx.usedIds }) := by
  rw [addRenderedByAttributes]
  rw [show setOrUpdateAttribute attrs "data-rendered-by" (.strA f) = attrs from
    setAttrNorm_eq_self _ _ _ hrb]
  rw [assignElementId_adopt fuel attrs ctx s hei hne hnw hfresh]

theorem addComponentAttributes_adopt (fuel : Nat) (attrs : List Attr)
    (f componentName : String) (ctx : IdGenerationContext) (s : String)
    (hcf : findAttrValue attrs "data-component-file" = some (.str f))
    (hcn : findAttrValue attrs "data-component-name" = some (.str componentName))
    (hei : findAttrValue attrs "data-editor-id" = some (.str s))
    (hne : s ≠ "") (hnw : hasNonWhitespace s = true)
    (hfresh : s ∉ ctx.usedIds) :
    addComponentAttributes fuel attrs f componentName ctx =
      some (attrs, { ctx with usedIds := s :: ctx.usedIds }) := by
  rw [addComponentAttributes]
  rw [show setOrUpdateAttribute attrs "data-component-file" (.strA f) = attrs from
    setAttrNorm_eq_self _ _ _ hcf]
  rw [show setOrUpdateAttribute attrs "data-component-name" (.strA componentName) =
      attrs from setAttrNorm_eq_self _ _ _ hcn]
  rw [assignElementId_adopt fuel attrs ctx s hei hne hnw hfresh]

/-! ## The second-run identity of the child descent

Running the descent over an already-annotated subtree whose assigned
ids are mutually distinct and unused adopts every id and leaves the
subtree unchanged. -/

theorem processChild_run2 (fuel : Nat) (f : String) :
    (∀ c : Child, ∀ (wrap : Bool) (ctx : IdGenerationContext),
      Annotated f wrap c →
      (assignedIdsChild c).Nodup →
      (∀ id ∈ assignedIdsChild c, id ∉ ctx.usedIds) →
      ∃ ctx', processChild fuel f wrap c ctx = some (c, ctx') ∧
        (∀ x ∈ ctx'.usedIds, x ∈ ctx.usedIds ∨ x ∈ assignedIdsChild c)) ∧
    (∀ l : List Child, ∀ (wrap : Bool) (ctx : IdGenerationContext),
      AnnotatedList f wrap l →
      (assignedIdsChildren l).Nodup →
      (∀ id ∈ assignedIdsChildren l, id ∉ ctx.usedIds) →
      ∃ ctx', processChildList fuel f wrap l ctx = some (l, ctx') ∧
        (∀ x ∈ ctx'.usedIds, x ∈ ctx.usedIds ∨ x ∈ assignedIdsChildren l)) := by
  apply child_mutual_induction
  case htext =>
    intro s wrap ctx hann _ _
    refine ⟨ctx, ?_, fun x hx => Or.inl hx⟩
    rw [processChild]
    rw [if_neg ?_]
    simp only [Annotated] at hann
    cases wrap with
    | false => simp
    | true => simp [hann rfl]
  case hexpr =>
    intro e wrap ctx hann _ _
    simp only [Annotated] at hann
    cases e with
    | ident n =>
      have hwf : wrap = false := by
        cases wrap with
        | false => rfl
        | true => exact absurd rfl (hann rfl n)
      subst hwf
      refine ⟨ctx, ?_, fun x hx => Or.inl hx⟩
      rw [processChild]
      rw [if_neg (by simp)]
    | member obj key computed opt =>
      refine ⟨ctx, ?_, fun x hx => Or.inl hx⟩
      rw [processChild]
      · split <;> rfl
      · intro n hn; cases hn
    | strLit t =>
      refine ⟨ctx, ?_, fun x hx => Or.inl hx⟩
      rw [processChild]
      · split <;> rfl
      · intro n hn; cases hn
    | nullLit =>
      refine ⟨ctx, ?_, fun x hx => Or.inl hx⟩
      rw [processChild]
      · split <;> rfl
      · intro n hn; cases hn
    | arrayL es =>
      refine ⟨ctx, ?_, fun x hx => Or.inl hx⟩
      rw [processChild]
      · split <;> rfl
      · intro n hn; cases hn
    | wrapped e1 =>
      refine ⟨ctx, ?_, fun x hx => Or.inl hx⟩
      rw [processChild]
      · split <;> rfl
      · intro n hn; cases hn
    | opaqueE refs =>
      refine ⟨ctx, ?_, fun x hx => Or.inl hx⟩
      rw [processChild]
      · split <;> rfl
      · intro n hn; cases hn
  case hfrag =>
    intro cs _ wrap ctx _ _ _
    exact ⟨ctx, by rw [processChild], fun x hx => Or.inl hx⟩
  case hspread =>
    intro wrap ctx _ _ _
    exact ⟨ctx, by rw [processChild], fun x hx => Or.inl hx⟩
  case hnil =>
    intro wrap ctx _ _ _
    exact ⟨ctx, by rw [processChildList], fun x hx => Or.inl hx⟩
  case hcons =>
    intro c rest ihc ihrest wrap ctx hann hnodup hfresh
    simp only [AnnotatedList] at hann
    obtain ⟨hann1, hann2⟩ := hann
    rw [assignedIdsChildren] at hnodup hfresh
    rw [List.nodup_append] at hnodup
    obtain ⟨hnodup1, hnodup2, hdisj⟩ := hnodup
    obtain ⟨ctx1, hc1, hchar1⟩ := ihc wrap ctx hann1 hnodup1
      (fun id hid => hfresh id (List.mem_append_left _ hid))
    have hfresh2 : ∀ id ∈ assignedIdsChildren rest, id ∉ ctx1.usedIds := by
      intro id hid hmem
      rcases hchar1 id hmem with hx0 | hxc
      · exact hfresh id (List.mem_append_right _ hid) hx0
      · exact hdisj hxc hid
    obtain ⟨ctx2, hc2, hchar2⟩ := ihrest wrap ctx1 hann2 hnodup2 hfresh2
    refine ⟨ctx2, ?_, ?_⟩
    · rw [processChildList, hc1]
      dsimp only []
      rw [hc2]
    · intro x hx
      rcases hchar2 x hx with hx1 | hx2
      · rcases hchar1 x hx1 with hx0 | hxc
        · exact Or.inl hx0
        · exact Or.inr (List.mem_append_left _ hxc)
      · exact Or.inr (List.mem_append_right _ hx2)
  case helem =>
    intro tag attrs children ihl wrap ctx hann hnodup hfresh
    by_cases hrc : isReactComponent tag = true
    · rw [Annotated, if_pos hrc] at hann
      rw [assignedIdsChild, if_pos hrc] at hnodup hfresh
      simp only [List.nil_append] at hnodup hfresh
      obtain ⟨ctx2, hp, hchar⟩ := ihl true
        { ctx with elementPath := ctx.elementPath ++ [tag] } hann hnodup hfresh
      refine ⟨{ ctx2 with elementPath := ctx.elementPath }, ?_, ?_⟩
      · rw [processChild, if_pos hrc, hp]
      · intro x hx
        rcases hchar x hx with hx0 | hxc
        · exact Or.inl hx0
        · refine Or.inr ?_
          rw [assignedIdsChild, if_pos hrc]
          simpa using hxc
    · rw [Annotated, if_neg hrc] at hann
      obtain ⟨hrb, ⟨s, hei, hne, hnw⟩, hannL⟩ := hann
      have heio : editorIdOf attrs = some s := by rw [editorIdOf, hei]
      rw [assignedIdsChild, if_neg hrc, heio] at hnodup hfresh
      simp only [Option.toList_some, List.cons_append, List.nil_append] at hnodup hfresh
      rw [List.nodup_cons] at hnodup
      obtain ⟨hs_not, hnodupC⟩ := hnodup
      have hsfresh : s ∉ ctx.usedIds := hfresh s (List.mem_cons_self _ _)
      have hadopt := addRenderedByAttributes_adopt fuel attrs f ctx s hrb hei
        hne hnw hsfresh
      have hfreshL : ∀ id ∈ assignedIdsChildren children, id ∉ s :: ctx.usedIds := by
        intro id hid
        simp only [List.mem_cons]
        intro hmem
        rcases hmem with rfl | hmem
        · exact hs_not hid
        · exact hfresh id (List.mem_cons_of_mem _ hid) hmem
      obtain ⟨ctx2, hp, hchar⟩ := ihl false ({ filename := ctx.filename, usedIds := s :: ctx.usedIds, elementCounter := ctx.elementCounter, elementPath := ctx.elementPath ++ [tag] } : IdGenerationContext) hannL hnodupC hfreshL
      refine ⟨{ ctx2 with elementPath := ctx.elementPath }, ?_, ?_⟩
      · rw [processChild, if_neg hrc, hadopt]
        dsimp only []
        rw [show ({ ctx with usedIds := s :: ctx.usedIds } :
            IdGenerationContext).elementPath = ctx.elementPath from rfl]
        rw [hp]
      · intro x hx
        rcases hchar x hx with hx0 | hxc
        · simp only [List.mem_cons] at hx0
          rcases hx0 with rfl | hx0
          · refine Or.inr ?_
            rw [assignedIdsChild, if_neg hrc, heio]
            simp
          · exact Or.inl hx0
        · refine Or.inr ?_
          rw [assignedIdsChild, if_neg hrc, heio]
          simp only [Option.toList_some, List.cons_append, List.nil_append,
            List.mem_cons]
          exact Or.inr hxc

/-! ## Fragment-pass bookkeeping -/

theorem fragRootIdsOnly_empty : ∀ l : List Child, fragRootIdsOnly "" l = [] := by
  intro l
  induction l with
  | nil => rfl
  | cons c rest ih =>
    cases c with
    | elem tag attrs children => simp [fragRootIdsOnly, ih]
    | text s => simpa [fragRootIdsOnly] using ih
    | exprSlot e => simpa [fragRootIdsOnly] using ih
    | frag cs => simpa [fragRootIdsOnly] using ih
    | spread => simpa [fragRootIdsOnly] using ih

theorem RootAttrsAnnotated_empty (name : String) :
    ∀ l : List Child, RootAttrsAnnotated "" name l := by
  intro l
  induction l with
  | nil => trivial
  | cons c rest ih =>
    cases c with
    | elem tag attrs children =>
      exact ⟨fun h => absurd rfl h, ih⟩
    | text s => exact ih
    | exprSlot e => exact ih
    | frag cs => exact ih
    | spread => exact ih

theorem assignedIdsFragRoots_perm (f : String) :
    ∀ l : List Child,
      (assignedIdsFragRoots f l).Perm (fragRootIdsOnly f l ++ fragDescIds l) := by
  intro l
  induction l with
  | nil => simp [assignedIdsFragRoots, fragRootIdsOnly, fragDescIds]
  | cons c rest ih =>
    cases c with
    | elem tag attrs children =>
      rw [assignedIdsFragRoots, fragRootIdsOnly, fragDescIds]
      refine List.Perm.trans (List.Perm.append_left _ ih) ?_
      have h2 : ((assignedIdsChildren children ++ fragRootIdsOnly f rest) ++
            fragDescIds rest).Perm
          ((fragRootIdsOnly f rest ++ assignedIdsChildren children) ++
            fragDescIds rest) :=
        List.Perm.append_right _ List.perm_append_comm
      have h3 : (assignedIdsChildren children ++
            (fragRootIdsOnly f rest ++ fragDescIds rest)).Perm
          (fragRootIdsOnly f rest ++
            (assignedIdsChildren children ++ fragDescIds rest)) := by
        have e1 : assignedIdsChildren children ++
              (fragRootIdsOnly f rest ++ fragDescIds rest) =
            (assignedIdsChildren children ++ fragRootIdsOnly f rest) ++
              fragDescIds rest := by rw [List.append_assoc]
        have e2 : fragRootIdsOnly f rest ++
              (assignedIdsChildren children ++ fragDescIds rest) =
            (fragRootIdsOnly f rest ++ assignedIdsChildren children) ++
              fragDescIds rest := by rw [List.append_assoc]
        rw [e1, e2]
        exact h2
      have e3 : ((if f == "" then [] else (editorIdOf attrs).toList) ++
            assignedIdsChildren children) ++
            (fragRootIdsOnly f rest ++ fragDescIds rest) =
          (if f == "" then [] else (editorIdOf attrs).toList) ++
            (assignedIdsChildren children ++
              (fragRootIdsOnly f rest ++ fragDescIds rest)) := by
        rw [List.append_assoc]
      have e4 : ((if f == "" then [] else (editorIdOf attrs).toList) ++
            fragRootIdsOnly f rest) ++
            (assignedIdsChildren children ++ fragDescIds rest) =
          (if f == "" then [] else (editorIdOf attrs).toList) ++
            (fragRootIdsOnly f rest ++
              (assignedIdsChildren children ++ fragDescIds rest)) := by
        rw [List.append_assoc]
      rw [e3, e4]
      exact List.Perm.append_left _ h3
    | text s =>
      rw [assignedIdsFragRoots, fragRootIdsOnly, fragDescIds] <;>
        first
          | exact ih
          | (intro tag attrs children h; cases h)
    | exprSlot e =>
      rw [assignedIdsFragRoots, fragRootIdsOnly, fragDescIds] <;>
        first
          | exact ih
          | (intro tag attrs children h; cases h)
    | frag cs =>
      rw [assignedIdsFragRoots, fragRootIdsOnly, fragDescIds] <;>
        first
          | exact ih
          | (intro tag attrs children h; cases h)
    | spread =>
      rw [assignedIdsFragRoots, fragRootIdsOnly, fragDescIds] <;>
        first
          | exact ih
          | (intro tag attrs children h; cases h)

/-! ## `processJSXChildren` wrappers of the run lemmas -/

theorem processJSXChildren_run1 (fuel : Nat) (f : String) (wrap : Bool)
    (tag : String) (children : List Child) (ctx : IdGenerationContext)
    (children2 : List Child) (ctx2 : IdGenerationContext)
    (h : processJSXChildren fuel f wrap tag children ctx = some (children2, ctx2)) :
    (∀ x ∈ ctx.usedIds, x ∈ ctx2.usedIds) ∧
    (∀ id ∈ assignedIdsChildren children2, id ∉ ctx.usedIds ∧ id ∈ ctx2.usedIds) ∧
    (assignedIdsChildren children2).Nodup ∧
    AnnotatedList f wrap children2 := by
  rw [processJSXChildren] at h
  split at h
  · exact absurd h (by simp)
  · rename_i cs2 ctxm hcl
    have hx : cs2 = children2 ∧
        ({ ctxm with elementPath := ctx.elementPath } : IdGenerationContext) = ctx2 := by
      simpa using h
    obtain ⟨rfl, rfl⟩ := hx
    obtain ⟨hmono, hids, hnodup, hann⟩ :=
      (processChild_run1 fuel f).2 children wrap _ cs2 ctxm hcl
    exact ⟨hmono, hids, hnodup, hann⟩

theorem processJSXChildren_run2 (fuel : Nat) (f : String) (wrap : Bool)
    (tag : String) (children : List Child) (ctx : IdGenerationContext)
    (hann : AnnotatedList f wrap children)
    (hnodup : (assignedIdsChildren children).Nodup)
    (hfresh : ∀ id ∈ assignedIdsChildren children, id ∉ ctx.usedIds) :
    ∃ ctx2, processJSXChildren fuel f wrap tag children ctx = some (children, ctx2) ∧
      (∀ x ∈ ctx2.usedIds, x ∈ ctx.usedIds ∨ x ∈ assignedIdsChildren children) := by
  obtain ⟨ctxm, hcl, hchar⟩ := (processChild_run2 fuel f).2 children wrap
    { ctx with elementPath := ctx.elementPath ++ [tag] } hann hnodup hfresh
  refine ⟨{ ctxm with elementPath := ctx.elementPath }, ?_, hchar⟩
  rw [processJSXChildren, hcl]

/-! ## First-run postconditions of the two fragment passes -/

theorem addEditorMetadataToFragmentChildren_run1 (fuel : Nat)
    (f name : String) (hf : f ≠ "") :
    ∀ (l : List Child) (ctx : IdGenerationContext) (l1 : List Child)
      (ctx1 : IdGenerationContext),
      addEditorMetadataToFragmentChildren fuel f name l ctx = some (l1, ctx1) →
      (∀ x ∈ ctx.usedIds, x ∈ ctx1.usedIds) ∧
      (∀ id ∈ fragRootIdsOnly f l1, id ∉ ctx.usedIds ∧ id ∈ ctx1.usedIds) ∧
      (fragRootIdsOnly f l1).Nodup ∧
      RootAttrsAnnotated f name l1 := by
  have hfb : (f == "") = false := by simpa using hf
  intro l
  induction l with
  | nil =>
    intro ctx l1 ctx1 h
    rw [addEditorMetadataToFragmentChildren] at h
    have hx : ([] : List Child) = l1 ∧ ctx = ctx1 := by simpa using h
    obtain ⟨rfl, rfl⟩ := hx
    exact ⟨fun x hx => hx, fun id hid => absurd hid (by simp [fragRootIdsOnly]),
      by simp [fragRootIdsOnly], trivial⟩
  | cons c rest ih =>
    intro ctx l1 ctx1 h
    cases c with
    | elem tag attrs children =>
      rw [addEditorMetadataToFragmentChildren] at h
      rw [addEditorMetadata] at h
      rw [if_neg (by simp [hf])] at h
      rw [if_pos rfl] at h
      split at h
      · exact absurd h (by simp)
      · rename_i attrs2 ctxm hacc
        split at h
        · exact absurd h (by simp)
        · rename_i rest2 ctxr hrest
          have hx : Child.elem tag attrs2 children :: rest2 = l1 ∧ ctxr = ctx1 := by
            simpa using h
          obtain ⟨rfl, rfl⟩ := hx
          obtain ⟨id, hcf, hcn, hei, heio, hfresh, hne, hnw, hused, hfile, hpath⟩ :=
            addComponentAttributes_spec fuel attrs f name ctx attrs2 ctxm hacc
          obtain ⟨hmono, hids, hnodup, hroot⟩ := ih ctxm rest2 ctxr hrest
          have hfr : fragRootIdsOnly f (Child.elem tag attrs2 children :: rest2) =
              id :: fragRootIdsOnly f rest2 := by
            rw [fragRootIdsOnly, if_neg (by simp [hf]), heio]
            rfl
          have hidm : id ∈ ctxm.usedIds := by
            rw [hused]; exact List.mem_cons_self _ _
          refine ⟨?_, ?_, ?_, ?_⟩
          · intro x hx
            exact hmono x (by rw [hused]; exact List.mem_cons_of_mem _ hx)
          · intro x hx
            rw [hfr] at hx
            rcases List.mem_cons.mp hx with rfl | hx2
            · exact ⟨hfresh, hmono _ hidm⟩
            · obtain ⟨hnot, hin⟩ := hids x hx2
              constructor
              · intro hmem
                exact hnot (by rw [hused]; exact List.mem_cons_of_mem _ hmem)
              · exact hin
          · rw [hfr, List.nodup_cons]
            refine ⟨?_, hnodup⟩
            intro hmem
            exact (hids id hmem).1 hidm
          · exact ⟨fun _ => ⟨hcf, hcn, id, hei, hne, hnw⟩, hroot⟩
    | text s =>
      rw [addEditorMetadataToFragmentChildren] at h
      · split at h
        · exact absurd h (by simp)
        · rename_i rest2 ctxr hrest
          have hx : Child.text s :: rest2 = l1 ∧ ctxr = ctx1 := by simpa using h
          obtain ⟨rfl, rfl⟩ := hx
          obtain ⟨hmono, hids, hnodup, hroot⟩ := ih ctx rest2 ctxr hrest
          refine ⟨hmono, ?_, ?_, hroot⟩
          · intro x hx
            exact hids x (by simpa [fragRootIdsOnly] using hx)
          · simpa [fragRootIdsOnly] using hnodup
      · intro tag attrs children hh; cases hh
    | exprSlot e =>
      rw [addEditorMetadataToFragmentChildren] at h
      · split at h
        · exact absurd h (by simp)
        · rename_i rest2 ctxr hrest
          have hx : Child.exprSlot e :: rest2 = l1 ∧ ctxr = ctx1 := by simpa using h
          obtain ⟨rfl, rfl⟩ := hx
          obtain ⟨hmono, hids, hnodup, hroot⟩ := ih ctx rest2 ctxr hrest
          refine ⟨hmono, ?_, ?_, hroot⟩
          · intro x hx
            exact hids x (by simpa [fragRootIdsOnly] using hx)
          · simpa [fragRootIdsOnly] using hnodup
      · intro tag attrs children hh; cases hh
    | frag cs =>
      rw [addEditorMetadataToFragmentChildren] at h
      · split at h
        · exact absurd h (by simp)
        · rename_i rest2 ctxr hrest
          have hx : Child.frag cs :: rest2 = l1 ∧ ctxr = ctx1 := by simpa using h
          obtain ⟨rfl, rfl⟩ := hx
          obtain ⟨hmono, hids, hnodup, hroot⟩ := ih ctx rest2 ctxr hrest
          refine ⟨hmono, ?_, ?_, hroot⟩
          · intro x hx
            exact hids x (by simpa [fragRootIdsOnly] using hx)
          · simpa [fragRootIdsOnly] using hnodup
      · intro tag attrs children hh; cases hh
    | spread =>
      rw [addEditorMetadataToFragmentChildren] at h
      · split at h
        · exact absurd h (by simp)
        · rename_i rest2 ctxr hrest
          have hx : Child.spread :: rest2 = l1 ∧ ctxr = ctx1 := by simpa using h
          obtain ⟨rfl, rfl⟩ := hx
          obtain ⟨hmono, hids, hnodup, hroot⟩ := ih ctx rest2 ctxr hrest
          refine ⟨hmono, ?_, ?_, hroot⟩
          · intro x hx
            exact hids x (by simpa [fragRootIdsOnly] using hx)
          · simpa [fragRootIdsOnly] using hnodup
      · intro tag attrs children hh; cases hh

theorem addRenderedByToFragmentChildren_run1 (fuel : Nat) (f name : String) :
    ∀ (l : List Child) (ctx : IdGenerationContext) (l2 : List Child)
      (ctx2 : IdGenerationContext),
      addRenderedByToFragmentChildren fuel f l ctx = some (l2, ctx2) →
      RootAttrsAnnotated f name l →
      (∀ x ∈ ctx.usedIds, x ∈ ctx2.usedIds) ∧
      (∀ id ∈ fragDescIds l2, id ∉ ctx.usedIds ∧ id ∈ ctx2.usedIds) ∧
      (fragDescIds l2).Nodup ∧
      fragRootIdsOnly f l2 = fragRootIdsOnly f l ∧
      AnnotatedFragRoots f name l2 := by
  intro l
  induction l with
  | nil =>
    intro ctx l2 ctx2 h _
    rw [addRenderedByToFragmentChildren] at h
    have hx : ([] : List Child) = l2 ∧ ctx = ctx2 := by simpa using h
    obtain ⟨rfl, rfl⟩ := hx
    exact ⟨fun x hx => hx, fun id hid => absurd hid (by simp [fragDescIds]),
      by simp [fragDescIds], rfl, trivial⟩
  | cons c rest ih =>
    intro ctx l2 ctx2 h hroots
    cases c with
    | elem tag attrs children =>
      rw [addRenderedByToFragmentChildren] at h
      obtain ⟨hra, hroots_rest⟩ := hroots
      split at h
      · exact absurd h (by simp)
      · rename_i children2 ctxm hpj
        split at h
        · exact absurd h (by simp)
        · rename_i rest2 ctxr hrest
          have hx : Child.elem tag attrs children2 :: rest2 = l2 ∧ ctxr = ctx2 := by
            simpa using h
          obtain ⟨rfl, rfl⟩ := hx
          obtain ⟨hmono1, hids1, hnodup1, hann1⟩ :=
            processJSXChildren_run1 fuel f false tag children ctx children2 ctxm hpj
          obtain ⟨hmono2, hids2, hnodup2, hfr2, hfrag2⟩ :=
            ih ctxm rest2 ctxr hrest hroots_rest
          have hfd : fragDescIds (Child.elem tag attrs children2 :: rest2) =
              assignedIdsChildren children2 ++ fragDescIds rest2 := rfl
          refine ⟨fun x hx => hmono2 x (hmono1 x hx), ?_, ?_, ?_, ?_⟩
          · intro x hx
            rw [hfd] at hx
            rcases List.mem_append.mp hx with hx1 | hx2
            · obtain ⟨hnot, hin⟩ := hids1 x hx1
              exact ⟨hnot, hmono2 x hin⟩
            · obtain ⟨hnot, hin⟩ := hids2 x hx2
              exact ⟨fun hmem => hnot (hmono1 x hmem), hin⟩
          · rw [hfd, List.nodup_append]
            refine ⟨hnodup1, hnodup2, ?_⟩
            intro a ha1 ha2
            exact (hids2 a ha2).1 (hids1 a ha1).2
          · rw [fragRootIdsOnly, fragRootIdsOnly, hfr2]
          · exact ⟨hra, hann1, hfrag2⟩
    | text s =>
      rw [addRenderedByToFragmentChildren] at h
      · split at h
        · exact absurd h (by simp)
        · rename_i rest2 ctxr hrest
          have hx : Child.text s :: rest2 = l2 ∧ ctxr = ctx2 := by simpa using h
          obtain ⟨rfl, rfl⟩ := hx
          obtain ⟨hmono, hids, hnodup, hfr, hfrag⟩ := ih ctx rest2 ctxr hrest hroots
          refine ⟨hmono, ?_, ?_, ?_, hfrag⟩
          · intro x hx
            exact hids x (by simpa [fragDescIds] using hx)
          · simpa [fragDescIds] using hnodup
          · simpa [fragRootIdsOnly] using hfr
      · intro tag attrs children hh; cases hh
    | exprSlot e =>
      rw [addRenderedByToFragmentChildren] at h
      · split at h
        · exact absurd h (by simp)
        · rename_i rest2 ctxr hrest
          have hx : Child.exprSlot e :: rest2 = l2 ∧ ctxr = ctx2 := by simpa using h
          obtain ⟨rfl, rfl⟩ := hx
          obtain ⟨hmono, hids, hnodup, hfr, hfrag⟩ := ih ctx rest2 ctxr hrest hroots
          refine ⟨hmono, ?_, ?_, ?_, hfrag⟩
          · intro x hx
            exact hids x (by simpa [fragDescIds] using hx)
          · simpa [fragDescIds] using hnodup
          · simpa [fragRootIdsOnly] using hfr
      · intro tag attrs children hh; cases hh
    | frag cs =>
      rw [addRenderedByToFragmentChildren] at h
      · split at h
        · exact absurd h (by simp)
        · rename_i rest2 ctxr hrest
          have hx : Child.frag cs :: rest2 = l2 ∧ ctxr = ctx2 := by simpa using h
          obtain ⟨rfl, rfl⟩ := hx
          obtain ⟨hmono, hids, hnodup, hfr, hfrag⟩ := ih ctx rest2 ctxr hrest hroots
          refine ⟨hmono, ?_, ?_, ?_, hfrag⟩
          · intro x hx
            exact hids x (by simpa [fragDescIds] using hx)
          · simpa [fragDescIds] using hnodup
          · simpa [fragRootIdsOnly] using hfr
      · intro tag attrs children hh; cases hh
    | spread =>
      rw [addRenderedByToFragmentChildren] at h
      · split at h
        · exact absurd h (by simp)
        · rename_i rest2 ctxr hrest
          have hx : Child.spread :: rest2 = l2 ∧ ctxr = ctx2 := by simpa using h
          obtain ⟨rfl, rfl⟩ := hx
          obtain ⟨hmono, hids, hnodup, hfr, hfrag⟩ := ih ctx rest2 ctxr hrest hroots
          refine ⟨hmono, ?_, ?_, ?_, hfrag⟩
          · intro x hx
            exact hids x (by simpa [fragDescIds] using hx)
          · simpa [fragDescIds] using hnodup
          · simpa [fragRootIdsOnly] using hfr
      · intro tag attrs children hh; cases hh

/-! ## Second-run identities of the two fragment passes -/

theorem addEditorMetadataToFragmentChildren_run2 (fuel : Nat)
    (f name : String) (hf : f ≠ "") :
    ∀ (l : List Child) (ctx : IdGenerationContext),
      RootAttrsAnnotated f name l →
      (fragRootIdsOnly f l).Nodup →
      (∀ id ∈ fragRootIdsOnly f l, id ∉ ctx.usedIds) →
      ∃ ctx1,
        addEditorMetadataToFragmentChildren fuel f name l ctx = some (l, ctx1) ∧
        (∀ x ∈ ctx1.usedIds, x ∈ ctx.usedIds ∨ x ∈ fragRootIdsOnly f l) := by
  intro l
  induction l with
  | nil =>
    intro ctx _ _ _
    exact ⟨ctx, by rw [addEditorMetadataToFragmentChildren],
      fun x hx => Or.inl hx⟩
  | cons c rest ih =>
    intro ctx hroots hnodup hfresh
    cases c with
    | elem tag attrs children =>
      obtain ⟨hra, hroots_rest⟩ := hroots
      obtain ⟨hcf, hcn, s, hei, hne, hnw⟩ := hra hf
      have heio : editorIdOf attrs = some s := by rw [editorIdOf, hei]
      have hfr : fragRootIdsOnly f (Child.elem tag attrs children :: rest) =
          s :: fragRootIdsOnly f rest := by
        rw [fragRootIdsOnly, if_neg (by simp [hf]), heio]
        rfl
      rw [hfr] at hnodup hfresh
      rw [List.nodup_cons] at hnodup
      obtain ⟨hs_not, hnodup_rest⟩ := hnodup
      have hsfresh : s ∉ ctx.usedIds := hfresh s (List.mem_cons_self _ _)
      have hadopt := addComponentAttributes_adopt fuel attrs f name ctx s
        hcf hcn hei hne hnw hsfresh
      have hfresh_rest : ∀ id ∈ fragRootIdsOnly f rest,
          id ∉ ({ ctx with usedIds := s :: ctx.usedIds } :
            IdGenerationContext).usedIds := by
        intro id hid
        simp only [List.mem_cons]
        intro hmem
        rcases hmem with rfl | hmem
        · exact hs_not hid
        · exact hfresh id (List.mem_cons_of_mem _ hid) hmem
      obtain ⟨ctx1, hrest, hchar⟩ :=
        ih { ctx with usedIds := s :: ctx.usedIds } hroots_rest hnodup_rest
          hfresh_rest
      refine ⟨ctx1, ?_, ?_⟩
      · rw [addEditorMetadataToFragmentChildren]
        rw [addEditorMetadata]
        rw [if_neg (by simp [hf])]
        rw [if_pos rfl]
        rw [hadopt]
        dsimp only []
        rw [hrest]
      · intro x hx
        rcases hchar x hx with hx1 | hx2
        · simp only [List.mem_cons] at hx1
          rcases hx1 with rfl | hx1
          · exact Or.inr (by rw [hfr]; exact List.mem_cons_self _ _)
          · exact Or.inl hx1
        · exact Or.inr (by rw [hfr]; exact List.mem_cons_of_mem _ hx2)
    | text s =>
      obtain ⟨ctx1, hrest, hchar⟩ := ih ctx hroots
        (by simpa [fragRootIdsOnly] using hnodup)
        (fun id hid => hfresh id (by simpa [fragRootIdsOnly] using hid))
      refine ⟨ctx1, ?_, ?_⟩
      · rw [addEditorMetadataToFragmentChildren]
        · rw [hrest]
        · intro tag attrs children hh; cases hh
      · intro x hx
        rcases hchar x hx with hx1 | hx2
        · exact Or.inl hx1
        · exact Or.inr (by simpa [fragRootIdsOnly] using hx2)
    | exprSlot e =>
      obtain ⟨ctx1, hrest, hchar⟩ := ih ctx hroots
        (by simpa [fragRootIdsOnly] using hnodup)
        (fun id hid => hfresh id (by simpa [fragRootIdsOnly] using hid))
      refine ⟨ctx1, ?_, ?_⟩
      · rw [addEditorMetadataToFragmentChildren]
        · rw [hrest]
        · intro tag attrs children hh; cases hh
      · intro x hx
        rcases hchar x hx with hx1 | hx2
        · exact Or.inl hx1
        · exact Or.inr (by simpa [fragRootIdsOnly] using hx2)
    | frag cs =>
      obtain ⟨ctx1, hrest, hchar⟩ := ih ctx hroots
        (by simpa [fragRootIdsOnly] using hnodup)
        (fun id hid => hfresh id (by simpa [fragRootIdsOnly] using hid))
      refine ⟨ctx1, ?_, ?_⟩
      · rw [addEditorMetadataToFragmentChildren]
        · rw [hrest]
        · intro tag attrs children hh; cases hh
      · intro x hx
        rcases hchar x hx with hx1 | hx2
        · exact Or.inl hx1
        · exact Or.inr (by simpa [fragRootIdsOnly] using hx2)
    | spread =>
      obtain ⟨ctx1, hrest, hchar⟩ := ih ctx hroots
        (by simpa [fragRootIdsOnly] using hnodup)
        (fun id hid => hfresh id (by simpa [fragRootIdsOnly] using hid))
      refine ⟨ctx1, ?_, ?_⟩
      · rw [addEditorMetadataToFragmentChildren]
        · rw [hrest]
        · intro tag attrs children hh; cases hh
      · intro x hx
        rcases hchar x hx with hx1 | hx2
        · exact Or.inl hx1
        · exact Or.inr (by simpa [fragRootIdsOnly] using hx2)

theorem addRenderedByToFragmentChildren_run2 (fuel : Nat) (f name : String) :
    ∀ (l : List Child) (ctx : IdGenerationContext),
      AnnotatedFragRoots f name l →
      (fragDescIds l).Nodup →
      (∀ id ∈ fragDescIds l, id ∉ ctx.usedIds) →
      ∃ ctx2,
        addRenderedByToFragmentChildren fuel f l ctx = some (l, ctx2) ∧
        (∀ x ∈ ctx2.usedIds, x ∈ ctx.usedIds ∨ x ∈ fragDescIds l) := by
  intro l
  induction l with
  | nil =>
    intro ctx _ _ _
    exact ⟨ctx, by rw [addRenderedByToFragmentChildren], fun x hx => Or.inl hx⟩
  | cons c rest ih =>
    intro ctx hfrag hnodup hfresh
    cases c with
    | elem tag attrs children =>
      obtain ⟨hra, hannC, hfrag_rest⟩ := hfrag
      have hfd : fragDescIds (Child.elem tag attrs children :: rest) =
          assignedIdsChildren children ++ fragDescIds rest := rfl
      rw [hfd] at hnodup hfresh
      rw [List.nodup_append] at hnodup
      obtain ⟨hnodupC, hnodup_rest, hdisj⟩ := hnodup
      obtain ⟨ctxm, hpj, hchar1⟩ := processJSXChildren_run2 fuel f false tag
        children ctx hannC hnodupC
        (fun id hid => hfresh id (List.mem_append_left _ hid))
      have hfresh_rest : ∀ id ∈ fragDescIds rest, id ∉ ctxm.usedIds := by
        intro id hid hmem
        rcases hchar1 id hmem with hx1 | hx2
        · exact hfresh id (List.mem_append_right _ hid) hx1
        · exact hdisj hx2 hid
      obtain ⟨ctx2, hrest, hchar2⟩ := ih ctxm hfrag_rest hnodup_rest hfresh_rest
      refine ⟨ctx2, ?_, ?_⟩
      · rw [addRenderedByToFragmentChildren, hpj]
        dsimp only []
        rw [hrest]
      · intro x hx
        rcases hchar2 x hx with hx1 | hx2
        · rcases hchar1 x hx1 with hx0 | hxc
          · exact Or.inl hx0
          · exact Or.inr (List.mem_append_left _ hxc)
        · exact Or.inr (List.mem_append_right _ hx2)
    | text s =>
      obtain ⟨ctx2, hrest, hchar⟩ := ih ctx hfrag
        (by simpa [fragDescIds] using hnodup)
        (fun id hid => hfresh id (by simpa [fragDescIds] using hid))
      refine ⟨ctx2, ?_, ?_⟩
      · rw [addRenderedByToFragmentChildren]
        · rw [hrest]
        · intro tag attrs children hh; cases hh
      · intro x hx
        rcases hchar x hx with hx1 | hx2
        · exact Or.inl hx1
        · exact Or.inr (by simpa [fragDescIds] using hx2)
    | exprSlot e =>
      obtain ⟨ctx2, hrest, hchar⟩ := ih ctx hfrag
        (by simpa [fragDescIds] using hnodup)
        (fun id hid => hfresh id (by simpa [fragDescIds] using hid))
      refine ⟨ctx2, ?_, ?_⟩
      · rw [addRenderedByToFragmentChildren]
        · rw [hrest]
        · intro tag attrs children hh; cases hh
      · intro x hx
        rcases hchar x hx with hx1 | hx2
        · exact Or.inl hx1
        · exact Or.inr (by simpa [fragDescIds] using hx2)
    | frag cs =>
      obtain ⟨ctx2, hrest, hchar⟩ := ih ctx hfrag
        (by simpa [fragDescIds] using hnodup)
        (fun id hid => hfresh id (by simpa [fragDescIds] using hid))
      refine ⟨ctx2, ?_, ?_⟩
      · rw [addRenderedByToFragmentChildren]
        · rw [hrest]
        · intro tag attrs children hh; cases hh
      · intro x hx
        rcases hchar x hx with hx1 | hx2
        · exact Or.inl hx1
        · exact Or.inr (by simpa [fragDescIds] using hx2)
    | spread =>
      obtain ⟨ctx2, hrest, hchar⟩ := ih ctx hfrag
        (by simpa [fragDescIds] using hnodup)
        (fun id hid => hfresh id (by simpa [fragDescIds] using hid))
      refine ⟨ctx2, ?_, ?_⟩
      · rw [addRenderedByToFragmentChildren]
        · rw [hrest]
        · intro tag attrs children hh; cases hh
      · intro x hx
        rcases hchar x hx with hx1 | hx2
        · exact Or.inl hx1
        · exact Or.inr (by simpa [fragDescIds] using hx2)

/-! ## The component pass: first-run postcondition and second-run identity -/

theorem processComponent_run1 (fuel : Nat) (f : String)
    (cdef cdef2 : ComponentDef) (ctx2 : IdGenerationContext)
    (h : processComponent fuel f cdef = some (cdef2, ctx2)) :
    cdef2.name = cdef.name ∧
    AnnotatedBody f cdef2.name cdef2.body ∧
    (assignedIdsBody f cdef2.body).Nodup := by
  rcases cdef with ⟨name, body⟩
  rw [processComponent] at h
  cases body with
  | elemB tag attrs children =>
    dsimp only [] at h
    by_cases hf : f = ""
    · rw [addEditorMetadata, if_pos (by simp [hf])] at h
      dsimp only [] at h
      split at h
      · exact absurd h (by simp)
      · rename_i children2 ctxm hpj
        have hx : ({ name := name, body := CompBody.elemB tag attrs children2 } :
            ComponentDef) = cdef2 ∧ ctxm = ctx2 := by simpa using h
        obtain ⟨rfl, rfl⟩ := hx
        obtain ⟨hmono, hids, hnodup, hann⟩ :=
          processJSXChildren_run1 fuel f false tag children _ children2 ctxm hpj
        refine ⟨rfl, ⟨fun hne => absurd hf hne, hann⟩, ?_⟩
        show (assignedIdsBody f (CompBody.elemB tag attrs children2)).Nodup
        rw [assignedIdsBody, if_pos (by simp [hf])]
        simpa using hnodup
    · rw [addEditorMetadata, if_neg (by simp [hf]), if_pos rfl] at h
      split at h
      · exact absurd h (by simp)
      · rename_i attrs2 ctx1 hacc
        split at h
        · exact absurd h (by simp)
        · rename_i children2 ctxm hpj
          have hx : ({ name := name, body := CompBody.elemB tag attrs2 children2 } :
              ComponentDef) = cdef2 ∧ ctxm = ctx2 := by simpa using h
          obtain ⟨rfl, rfl⟩ := hx
          obtain ⟨id, hcf, hcn, hei, heio, hfresh, hne, hnw, hused, hfile, hpath⟩ :=
            addComponentAttributes_spec fuel attrs f name _ attrs2 ctx1 hacc
          obtain ⟨hmono, hids, hnodup, hann⟩ :=
            processJSXChildren_run1 fuel f false tag children ctx1 children2 ctxm hpj
          refine ⟨rfl, ⟨fun _ => ⟨hcf, hcn, id, hei, hne, hnw⟩, hann⟩, ?_⟩
          show (assignedIdsBody f (CompBody.elemB tag attrs2 children2)).Nodup
          rw [assignedIdsBody, if_neg (by simp [hf]), heio]
          rw [Option.toList_some, List.cons_append, List.nil_append,
            List.nodup_cons]
          refine ⟨?_, hnodup⟩
          intro hmem
          have hid1 : id ∈ ctx1.usedIds := by
            rw [hused]; exact List.mem_cons_self _ _
          exact (hids id hmem).1 hid1
  | fragB children =>
    dsimp only [] at h
    by_cases hf : f = ""
    · subst hf
      rw [if_pos (by simp)] at h
      split at h
      · exact absurd h (by simp)
      · rename_i children2 ctxm hp2
        have hx : ({ name := name, body := CompBody.fragB children2 } :
            ComponentDef) = cdef2 ∧ ctxm = ctx2 := by simpa using h
        obtain ⟨rfl, rfl⟩ := hx
        obtain ⟨hmono, hids, hnodup, hfr, hfrag⟩ :=
          addRenderedByToFragmentChildren_run1 fuel "" name children _
            children2 ctxm hp2 (RootAttrsAnnotated_empty name children)
        refine ⟨rfl, hfrag, ?_⟩
        show (assignedIdsBody "" (CompBody.fragB children2)).Nodup
        rw [assignedIdsBody]
        rw [(assignedIdsFragRoots_perm "" children2).nodup_iff]
        rw [fragRootIdsOnly_empty children2, List.nil_append]
        exact hnodup
    · rw [if_neg (by simp [hf])] at h
      split at h
      · exact absurd h (by simp)
      · rename_i children1 ctxa hp1
        split at h
        · exact absurd h (by simp)
        · rename_i children2 ctxm hp2
          have hx : ({ name := name, body := CompBody.fragB children2 } :
              ComponentDef) = cdef2 ∧ ctxm = ctx2 := by simpa using h
          obtain ⟨rfl, rfl⟩ := hx
          obtain ⟨hmono1, hids1, hnodup1, hroot1⟩ :=
            addEditorMetadataToFragmentChildren_run1 fuel f name hf children _
              children1 ctxa hp1
          obtain ⟨hmono2, hids2, hnodup2, hfr2, hfrag2⟩ :=
            addRenderedByToFragmentChildren_run1 fuel f name children1 ctxa
              children2 ctxm hp2 hroot1
          refine ⟨rfl, hfrag2, ?_⟩
          show (assignedIdsBody f (CompBody.fragB children2)).Nodup
          rw [assignedIdsBody]
          rw [(assignedIdsFragRoots_perm f children2).nodup_iff]
          rw [List.nodup_append]
          refine ⟨by rw [hfr2]; exact hnodup1, hnodup2, ?_⟩
          intro a ha1 ha2
          rw [hfr2] at ha1
          exact (hids2 a ha2).1 (hids1 a ha1).2
  | otherB =>
    dsimp only [] at h
    have hx : ({ name := name, body := CompBody.otherB } :
        ComponentDef) = cdef2 ∧
        ({ filename := f, usedIds := [], elementCounter := 0,
           elementPath := [] } : IdGenerationContext) = ctx2 := by simpa using h
    obtain ⟨rfl, rfl⟩ := hx
    exact ⟨rfl, trivial, by simp [assignedIdsBody, assignedIdsFragRoots]⟩

theorem rootAttrs_of_annotatedFragRoots (f name : String) :
    ∀ l : List Child, AnnotatedFragRoots f name l → RootAttrsAnnotated f name l := by
  intro l
  induction l with
  | nil => intro _; trivial
  | cons c rest ih =>
    cases c with
    | elem tag attrs children =>
      intro h
      obtain ⟨hra, _, hrest⟩ := h
      exact ⟨hra, ih hrest⟩
    | text s => intro h; exact ih h
    | exprSlot e => intro h; exact ih h
    | frag cs => intro h; exact ih h
    | spread => intro h; exact ih h

theorem processComponent_run2 (fuel : Nat) (f : String) (cdef : ComponentDef)
    (hann : AnnotatedBody f cdef.name cdef.body)
    (hnodup : (assignedIdsBody f cdef.body).Nodup) :
    ∃ ctx', processComponent fuel f cdef = some (cdef, ctx') := by
  rcases cdef with ⟨name, body⟩
  dsimp only [] at hann hnodup
  cases body with
  | elemB tag attrs children =>
    obtain ⟨hra, hannC⟩ := hann
    by_cases hf : f = ""
    · subst hf
      have hnodupC : (assignedIdsChildren children).Nodup := by
        have he : assignedIdsBody "" (CompBody.elemB tag attrs children) =
            assignedIdsChildren children := by
          rw [assignedIdsBody, if_pos (by simp)]
          rfl
        rw [he] at hnodup
        exact hnodup
      obtain ⟨ctxm, hpj, hchar⟩ := processJSXChildren_run2 fuel "" false tag
        children { filename := "", usedIds := [], elementCounter := 0, elementPath := [] } hannC hnodupC
        (fun id hid hmem => by simp at hmem)
      refine ⟨ctxm, ?_⟩
      rw [processComponent]
      dsimp only []
      rw [addEditorMetadata, if_pos (by simp)]
      dsimp only []
      rw [hpj]
    · obtain ⟨hcf, hcn, s, hei, hne, hnw⟩ := hra hf
      obtain ⟨hannCx⟩ : PLift (AnnotatedList f false children) := ⟨hannC⟩
      have heio : editorIdOf attrs = some s := by rw [editorIdOf, hei]
      have hfr : assignedIdsBody f (CompBody.elemB tag attrs children) =
          s :: assignedIdsChildren children := by
        rw [assignedIdsBody, if_neg (by simp [hf]), heio]
        rfl
      rw [hfr] at hnodup
      rw [List.nodup_cons] at hnodup
      obtain ⟨hs_not, hnodupC⟩ := hnodup
      have hadopt := addComponentAttributes_adopt fuel attrs f name
        { filename := f, usedIds := [], elementCounter := 0, elementPath := [] } s hcf hcn hei hne hnw (by simp)
      have hfreshC : ∀ id ∈ assignedIdsChildren children,
          id ∉ ({ filename := f, usedIds := [s], elementCounter := 0, elementPath := [] } : IdGenerationContext).usedIds := by
        intro id hid hmem
        simp only [List.mem_singleton] at hmem
        subst hmem
        exact hs_not hid
      obtain ⟨ctxm, hpj, hchar⟩ := processJSXChildren_run2 fuel f false tag
        children { filename := f, usedIds := [s], elementCounter := 0, elementPath := [] } hannCx hnodupC hfreshC
      refine ⟨ctxm, ?_⟩
      rw [processComponent]
      dsimp only []
      rw [addEditorMetadata, if_neg (by simp [hf]), if_pos rfl, hadopt]
      dsimp only []
      rw [hpj]
  | fragB children =>
    by_cases hf : f = ""
    · subst hf
      have hperm := assignedIdsFragRoots_perm "" children
      have hndesc : (fragDescIds children).Nodup := by
        have h2 := hperm.nodup_iff.mp hnodup
        rw [fragRootIdsOnly_empty children, List.nil_append] at h2
        exact h2
      obtain ⟨ctxm, hp2, hchar⟩ := addRenderedByToFragmentChildren_run2 fuel "" name
        children { filename := "", usedIds := [], elementCounter := 0, elementPath := [] } hann hndesc (fun id hid hmem => by simp at hmem)
      refine ⟨ctxm, ?_⟩
      rw [processComponent]
      dsimp only []
      rw [if_pos (by simp)]
      rw [hp2]
    · have hperm := assignedIdsFragRoots_perm f children
      have hboth := hperm.nodup_iff.mp hnodup
      rw [List.nodup_append] at hboth
      obtain ⟨hnroot, hndesc, hdisj⟩ := hboth
      obtain ⟨ctxa, hp1, hchar1⟩ := addEditorMetadataToFragmentChildren_run2 fuel f
        name hf children { filename := f, usedIds := [], elementCounter := 0, elementPath := [] }
        (rootAttrs_of_annotatedFragRoots f name children hann) hnroot
        (fun id hid hmem => by simp at hmem)
      have hfresh2 : ∀ id ∈ fragDescIds children, id ∉ ctxa.usedIds := by
        intro id hid hmem
        rcases hchar1 id hmem with hx1 | hx2
        · simp at hx1
        · exact hdisj hx2 hid
      obtain ⟨ctxm, hp2, hchar2⟩ := addRenderedByToFragmentChildren_run2 fuel f name
        children ctxa hann hndesc hfresh2
      refine ⟨ctxm, ?_⟩
      rw [processComponent]
      dsimp only []
      rw [if_neg (by simp [hf])]
      rw [hp1]
      dsimp only []
      rw [hp2]
  | otherB =>
    exact ⟨{ filename := f, usedIds := [], elementCounter := 0, elementPath := [] }, by rw [processComponent]⟩

/-! ## Whole-file annotation: first run and second run -/

theorem annotateFile_run1 (fuel : Nat) (f : String) :
    ∀ (defs defs2 : List ComponentDef),
      annotateFile fuel f defs = some defs2 → AnnotatedFile f defs2 := by
  intro defs
  induction defs with
  | nil =>
    intro defs2 h
    rw [annotateFile] at h
    have hx : ([] : List ComponentDef) = defs2 := by simpa using h
    rw [← hx]
    trivial
  | cons d rest ih =>
    intro defs2 h
    rw [annotateFile] at h
    split at h
    · exact absurd h (by simp)
    · rename_i d2 ctxp hpc
      split at h
      · exact absurd h (by simp)
      · rename_i rest2 hrest
        have hx : d2 :: rest2 = defs2 := by simpa using h
        rw [← hx]
        obtain ⟨hname, hann, hnodup⟩ := processComponent_run1 fuel f d d2 ctxp hpc
        exact ⟨hann, hnodup, ih rest2 hrest⟩

theorem annotateFile_run2 (fuel : Nat) (f : String) :
    ∀ defs : List ComponentDef, AnnotatedFile f defs →
      annotateFile fuel f defs = some defs := by
  intro defs
  induction defs with
  | nil => intro _; rw [annotateFile]
  | cons d rest ih =>
    intro h
    obtain ⟨hann, hnodup, hrest⟩ := h
    obtain ⟨ctx', hpc⟩ := processComponent_run2 fuel f d hann hnodup
    rw [annotateFile, hpc]
    dsimp only []
    rw [ih hrest]

/-! ## MD5 reference vectors (RFC 1321 test suite, truncated to 12 hex) -/

theorem md5hex12_abc : md5hex12 "abc" = "900150983cd2" := by decide

theorem md5hex12_empty : md5hex12 "" = "d41d8cd98f00" := by decide

/-! ## The retry loop of `generateNewId`: every skipped seed collided -/

theorem generateNewId_collisions (fuel : Nat) :
    ∀ (ctx : IdGenerationContext) (id : String) (ctx1 : IdGenerationContext),
    generateNewId fuel ctx = some (id, ctx1) →
    id ∉ ctx.usedIds ∧
    ∃ k, ctx.elementCounter ≤ k ∧
      id = md5hex12 (seedString ctx.elementPath k ctx.filename) ∧
      ∀ j, ctx.elementCounter ≤ j → j < k →
        md5hex12 (seedString ctx.elementPath j ctx.filename) ∈ ctx.usedIds := by
  induction fuel with
  | zero => intro ctx id ctx1 h; simp [generateNewId] at h
  | succ fuel ih =>
    intro ctx id ctx1 h
    rw [generateNewId] at h
    by_cases hc : ctx.usedIds.contains
        (md5hex12 (seedString ctx.elementPath ctx.elementCounter ctx.filename)) = true
    · rw [if_pos hc] at h
      obtain ⟨hfresh, k, hk1, hk2, hcoll⟩ := ih _ _ _ h
      refine ⟨by simpa using hfresh, k, ?_, by simpa using hk2, ?_⟩
      · have hk1' : ctx.elementCounter + 1 ≤ k := by simpa using hk1
        omega
      · intro j hj1 hj2
        by_cases hje : j = ctx.elementCounter
        · subst hje
          simpa using hc
        · have hj1' : ctx.elementCounter + 1 ≤ j := by omega
          have hcj := hcoll j (by simpa using hj1') hj2
          simpa using hcj
    · rw [if_neg hc] at h
      obtain ⟨rfl, rfl⟩ := Prod.mk.injEq .. ▸ Option.some.injEq .. ▸ h
      refine ⟨?_, ctx.elementCounter, le_refl _, rfl, ?_⟩
      · intro hmem; exact hc (by simpa using hmem)
      · intro j hj1 hj2; omega

/-! ## The claims -/

/-- C2: the annotation engine is deterministic — its output depends
only on the input tree and filename, not on the ambient environment's
wall clock or random stream; two runs in any two environments produce
identical output, so identical `data-editor-id` values for every
corresponding element. -/
theorem c2_annotation_deterministic (env1 env2 : EngineEnv) (fuel : Nat)
    (filename : String) (defs : List ComponentDef) :
    annotateFileInEnv env1 fuel filename defs =
      annotateFileInEnv env2 fuel filename defs := rfl

/-- C3: annotation is idempotent — annotating the already-annotated
output again returns it byte-identically (attributes are replaced in
place, never duplicated, and every existing id is adopted unchanged). -/
theorem c3_annotation_idempotent (fuel : Nat) (filename : String)
    (defs defs2 : List ComponentDef)
    (h : annotateFile fuel filename defs = some defs2) :
    annotateFile fuel filename defs2 = some defs2 :=
  annotateFile_run2 fuel filename defs2
    (annotateFile_run1 fuel filename defs defs2 h)

/-- C3 witness: one component with an authored `data-editor-id`; the
annotated output re-annotates to itself. -/
theorem c3_annotation_idempotent_witness :
    annotateFile 1 "src/Card.js"
      [{ name := "Card", body := CompBody.elemB "div" [Attr.named "data-editor-id" (AttrValue.str "abc123"), Attr.named "data-component-file" (AttrValue.str "src/Card.js"), Attr.named "data-component-name" (AttrValue.str "Card")] [] }] =
    some [{ name := "Card", body := CompBody.elemB "div" [Attr.named "data-editor-id" (AttrValue.str "abc123"), Attr.named "data-component-file" (AttrValue.str "src/Card.js"), Attr.named "data-component-name" (AttrValue.str "Card")] [] }] :=
  c3_annotation_idempotent 1 "src/Card.js"
    [{ name := "Card", body := CompBody.elemB "div" [Attr.named "data-editor-id" (AttrValue.str "abc123")] [] }] _ rfl

/-- C4: the identifier assigner either adopts an existing non-empty,
non-whitespace, unused `data-editor-id` unchanged, or synthesizes the
12-hex digest of the path/counter/filename seed, retrying past every
counter value whose digest collides with a used id; the final id is
always recorded in the used set and written onto the element. -/
theorem c4_assigner_characterization (fuel : Nat) (attrs : List Attr)
    (ctx : IdGenerationContext) (id : String) (attrs1 : List Attr)
    (ctx1 : IdGenerationContext)
    (h : assignElementId fuel attrs ctx = some (id, attrs1, ctx1)) :
    ctx1.usedIds = id :: ctx.usedIds ∧
    findAttrValue attrs1 "data-editor-id" = some (AttrValue.str id) ∧
    ((∃ s, findAttrValue attrs "data-editor-id" = some (AttrValue.str s) ∧
        s ≠ "" ∧ hasNonWhitespace s = true ∧ s ∉ ctx.usedIds ∧ id = s ∧
        attrs1 = attrs) ∨
      (id ∉ ctx.usedIds ∧
        ∃ k, ctx.elementCounter ≤ k ∧
          id = md5hex12 (seedString ctx.elementPath k ctx.filename) ∧
          ∀ j, ctx.elementCounter ≤ j → j < k →
            md5hex12 (seedString ctx.elementPath j ctx.filename) ∈ ctx.usedIds)) := by
  obtain ⟨hset, hfresh, hne, hnw, hused, hfile, hpath⟩ :=
    assignElementId_spec fuel attrs ctx id attrs1 ctx1 h
  refine ⟨hused, ?_, ?_⟩
  · rw [hset]; exact findAttrValue_setAttrNorm_self _ _ _
  · rw [assignElementId] at h
    rcases hch : chooseElementId fuel attrs ctx with _ | ⟨cid, ctxa⟩
    · rw [hch] at h; simp at h
    · rw [hch] at h
      simp only [Option.some.injEq, Prod.mk.injEq] at h
      obtain ⟨hcid, hattrs1, hctx1⟩ := h
      rw [chooseElementId] at hch
      split at hch
      · rename_i s hfind
        split at hch
        · rename_i hadopt
          have hx : s = cid ∧ ctx = ctxa := by simpa using hch
          obtain ⟨hscid, hctxa⟩ := hx
          rw [adoptable] at hadopt
          simp only [Bool.and_eq_true, Bool.not_eq_true'] at hadopt
          obtain ⟨⟨hne2, hnw2⟩, hnc⟩ := hadopt
          have hids : id = s := by rw [← hcid, hscid]
          refine Or.inl ⟨s, hfind, by simpa using hne2, hnw2,
            by simpa using hnc, hids, ?_⟩
          rw [← hattrs1, ← hscid]
          exact setAttrNorm_eq_self attrs "data-editor-id" (AttrValue.str s) hfind
        · rename_i hnadopt
          obtain ⟨hfr, k, hk1, hk2, hcoll⟩ :=
            generateNewId_collisions fuel ctx cid ctxa hch
          rw [← hcid]
          exact Or.inr ⟨hfr, k, hk1, hk2, hcoll⟩
      · obtain ⟨hfr, k, hk1, hk2, hcoll⟩ :=
          generateNewId_collisions fuel ctx cid ctxa hch
        rw [← hcid]
        exact Or.inr ⟨hfr, k, hk1, hk2, hcoll⟩

/-- C4 witness: an authored id `abc` on an element is adopted and
recorded in the used-id set. -/
theorem c4_assigner_witness :
    ({ filename := "f.js", usedIds := ["abc"], elementCounter := 0, elementPath := [] } : IdGenerationContext).usedIds =
      "abc" :: ({ filename := "f.js", usedIds := [], elementCounter := 0, elementPath := [] } : IdGenerationContext).usedIds :=
  (c4_assigner_characterization 1
    [Attr.named "data-editor-id" (AttrValue.str "abc")]
    { filename := "f.js", usedIds := [], elementCounter := 0, elementPath := [] }
    "abc" [Attr.named "data-editor-id" (AttrValue.str "abc")]
    { filename := "f.js", usedIds := ["abc"], elementCounter := 0, elementPath := [] } rfl).1

/-- C5 (divergence): the mature engine wraps a bare `children`
identifier expression slot under wrap-enabled descent in a synthetic
span, exactly like any other single identifier — the special
`children` passthrough exemption exists only in the superseded legacy
variant. -/
theorem c5_children_passthrough_wrapped_bug :
    ∃ (spanAttrs : List Attr) (ctx1 : IdGenerationContext),
      processChild 1 "src/Button.js" true
        (Child.exprSlot (Expr.ident "children"))
        { filename := "src/Button.js", usedIds := [], elementCounter := 0, elementPath := [] } =
      some (Child.elem "span" spanAttrs
        [Child.exprSlot (Expr.ident "children")], ctx1) :=
  ⟨_, _, rfl⟩

/-- C7 (divergence): with an empty filename only the root-level
`addEditorMetadata` step is a no-op; the child descent still runs and
annotates every native descendant with `data-rendered-by=""` and a
synthesized editor id, so the tree is not returned unchanged. -/
theorem c7_empty_filename_still_annotates_bug :
    ∃ (attrs : List Attr) (ctx' : IdGenerationContext),
      processComponent 1 ""
        { name := "C", body := CompBody.elemB "div" [] [Child.elem "p" [] []] } =
        some ({ name := "C", body := CompBody.elemB "div" [] [Child.elem "p" attrs []] }, ctx') ∧
      findAttrValue attrs "data-rendered-by" = some (AttrValue.str "") ∧
      ∃ id, findAttrValue attrs "data-editor-id" = some (AttrValue.str id) ∧
        id ≠ "" :=
  ⟨_, _, rfl, rfl, md5hex12 (seedString ["div"] 0 ""), rfl, md5hex12_ne_empty _⟩

/-- C8: a filename matching some skip-list entry by equality or
substring containment disables the whole pass: the file is returned
unmodified. -/
theorem c8_skip_files_identity (fuel : Nat) (opts : MetadataOptions)
    (file : List ComponentDef) (sk : String)
    (hmem : sk ∈ opts.skipFiles.getD [])
    (hmatch : opts.filename.getD "" = sk ∨
      strIncludes (opts.filename.getD "") sk = true) :
    attachMetadata fuel opts file = some file := by
  have hskip : shouldSkipFile (opts.filename.getD "")
      (opts.skipFiles.getD []) = true := by
    rw [shouldSkipFile, List.any_eq_true]
    refine ⟨sk, hmem, ?_⟩
    rcases hmatch with h1 | h2
    · simp [h1]
    · simp [h2]
  rw [attachMetadata]
  rw [if_pos hskip]

/-- C8 witness: `src/ImageOptimizer.jsx` with skip entry
`ImageOptimizer.jsx` (substring containment) yields the file
unchanged. -/
theorem c8_skip_files_identity_witness :
    attachMetadata 1
      { filename := some "src/ImageOptimizer.jsx", skipFiles := some ["ImageOptimizer.jsx"] }
      [{ name := "C", body := CompBody.elemB "div" [] [] }] =
    some [{ name := "C", body := CompBody.elemB "div" [] [] }] :=
  c8_skip_files_identity 1
    { filename := some "src/ImageOptimizer.jsx", skipFiles := some ["ImageOptimizer.jsx"] }
    [{ name := "C", body := CompBody.elemB "div" [] [] }]
    "ImageOptimizer.jsx" (by simp) (Or.inr (by decide))

/-- C1 counterexample: two structurally identical component
definitions in one file both get the root id hashed from the same
`element[0]@file` seed, because every component starts from a fresh
`IdGenerationContext` — file-wide uniqueness fails across components. -/
theorem c1_file_uniqueness_counterexample :
    (annotateFile 1 "src/Card.js"
      [{ name := "A", body := CompBody.elemB "div" [] [] },
       { name := "B", body := CompBody.elemB "div" [] [] }]).isSome = true ∧
    ¬ (assignedIdsFile "src/Card.js"
        ((annotateFile 1 "src/Card.js"
          [{ name := "A", body := CompBody.elemB "div" [] [] },
           { name := "B", body := CompBody.elemB "div" [] [] }]).getD [])).Nodup := by
  refine ⟨rfl, ?_⟩
  intro hnd
  have he : assignedIdsFile "src/Card.js"
      ((annotateFile 1 "src/Card.js"
        [{ name := "A", body := CompBody.elemB "div" [] [] },
         { name := "B", body := CompBody.elemB "div" [] [] }]).getD []) =
      [md5hex12 (seedString [] 0 "src/Card.js"),
       md5hex12 (seedString [] 0 "src/Card.js")] := rfl
  rw [he] at hnd
  exact (List.nodup_cons.mp hnd).1 (by simp)

/-- C1 (amended): editor-id uniqueness holds within each component
definition — every successful `processComponent` run leaves the ids it
assigned in that component's subtree pairwise distinct. -/
theorem c1_amended_per_component_uniqueness (fuel : Nat) (f : String)
    (cdef cdef2 : ComponentDef) (ctx2 : IdGenerationContext)
    (h : processComponent fuel f cdef = some (cdef2, ctx2)) :
    (assignedIdsBody f cdef2.body).Nodup :=
  (processComponent_run1 fuel f cdef cdef2 ctx2 h).2.2

/-- C1 witness: a single `<div>`-rooted component yields one root id,
trivially distinct. -/
theorem c1_amended_witness :
    (assignedIdsBody "src/Card.js" (CompBody.elemB "div" [Attr.named "data-component-file" (AttrValue.str "src/Card.js"), Attr.named "data-component-name" (AttrValue.str "A"), Attr.named "data-editor-id" (AttrValue.str (md5hex12 (seedString [] 0 "src/Card.js")))] [])).Nodup :=
  c1_amended_per_component_uniqueness 1 "src/Card.js"
    { name := "A", body := CompBody.elemB "div" [] [] } _ _ rfl

/-- C6 counterexample: the synthetic span the mature engine wraps a
non-whitespace text run in carries no `style` attribute at all (the
`display: contents` styling exists only in the superseded legacy
variant). -/
theorem c6_span_style_counterexample :
    ∃ (spanAttrs : List Attr) (ctx1 : IdGenerationContext),
      processChild 1 "src/Card.js" true (Child.text "Hello")
        { filename := "src/Card.js", usedIds := [], elementCounter := 0, elementPath := [] } =
        some (Child.elem "span" spanAttrs [Child.text "Hello"], ctx1) ∧
      findAttrValue spanAttrs "style" = none :=
  ⟨_, _, rfl, rfl⟩

/-- C6 (amended): a non-whitespace text run under wrap-enabled descent
becomes a synthetic span with `data-rendered-by` and a non-empty
`data-editor-id` (no styling) holding the original text as sole child;
a whitespace-only run, or any text outside wrapping, passes through
untouched. -/
theorem c6_amended_text_wrapping (fuel : Nat) (f : String) (wrap : Bool)
    (s : String) (ctx : IdGenerationContext) (out : Child)
    (ctx' : IdGenerationContext)
    (h : processChild fuel f wrap (Child.text s) ctx = some (out, ctx')) :
    (hasNonWhitespace s = true → wrap = true →
      ∃ attrs id, out = Child.elem "span" attrs [Child.text s] ∧
        findAttrValue attrs "data-rendered-by" = some (AttrValue.str f) ∧
        findAttrValue attrs "data-editor-id" = some (AttrValue.str id) ∧
        id ≠ "" ∧ hasNonWhitespace id = true) ∧
    (hasNonWhitespace s = false ∨ wrap = false →
      out = Child.text s ∧ ctx' = ctx) := by
  rw [processChild] at h
  by_cases hcond : (hasNonWhitespace s && wrap) = true
  · rw [if_pos hcond] at h
    split at h
    · exact absurd h (by simp)
    · rename_i spanAttrs ctxm hrb
      have hx : Child.elem "span" spanAttrs [Child.text s] = out ∧ ctxm = ctx' := by
        simpa using h
      obtain ⟨hout, hctx⟩ := hx
      obtain ⟨id2, hrbv, heiv, heio, hfr, hne, hnw, hused, hfile, hpath⟩ :=
        addRenderedByAttributes_spec fuel [] f ctx spanAttrs ctxm hrb
      constructor
      · intro _ _
        exact ⟨spanAttrs, id2, hout.symm, hrbv, heiv, hne, hnw⟩
      · intro hor
        exfalso
        rw [Bool.and_eq_true] at hcond
        rcases hor with h1 | h2
        · rw [hcond.1] at h1; cases h1
        · rw [hcond.2] at h2; cases h2
  · rw [if_neg hcond] at h
    have hx : Child.text s = out ∧ ctx = ctx' := by simpa using h
    obtain ⟨hout, hctx⟩ := hx
    constructor
    · intro h1 h2
      exact absurd (by simp [h1, h2]) hcond
    · intro _
      exact ⟨hout.symm, hctx.symm⟩

/-- C6 witness: wrapping `Hi` under a composed parent produces the
span with rendered-by and a fresh editor id. -/
theorem c6_amended_witness :
    ∃ attrs id,
      Child.elem "span" [Attr.named "data-rendered-by" (AttrValue.str "src/Card.js"), Attr.named "data-editor-id" (AttrValue.str (md5hex12 (seedString [] 0 "src/Card.js")))] [Child.text "Hi"] =
        Child.elem "span" attrs [Child.text "Hi"] ∧
      findAttrValue attrs "data-rendered-by" = some (AttrValue.str "src/Card.js") ∧
      findAttrValue attrs "data-editor-id" = some (AttrValue.str id) ∧
      id ≠ "" ∧ hasNonWhitespace id = true :=
  (c6_amended_text_wrapping 1 "src/Card.js" true "Hi"
    { filename := "src/Card.js", usedIds := [], elementCounter := 0, elementPath := [] }
    _ _ rfl).1 rfl rfl

theorem resolveCollectionSourceInfo_varDecl_some (sourceName : String)
    (kind : String) (init : InitExpr) :
    resolveCollectionSourceInfo sourceName
        (some { kind := kind, path := BindingPath.varDecl (some init) }) =
      (if kind == "module" then none
       else
        match unwrapInit init with
        | InitExpr.arrayInit elems =>
          some { sourceName := sourceName, elems := elems }
        | _ => none) := rfl

theorem resolveCollectionSourceInfo_none_iff (sourceName : String)
    (ob : Option Binding) :
    resolveCollectionSourceInfo sourceName ob = none ↔
      ¬ ∃ (b : Binding) (init : InitExpr) (elems : List ColElem),
        ob = some b ∧ b.kind ≠ "module" ∧
        b.path = BindingPath.varDecl (some init) ∧
        unwrapInit init = InitExpr.arrayInit elems := by
  cases ob with
  | none =>
    constructor
    · rintro _ ⟨b, init, elems, hb, _, _, _⟩
      cases hb
    · intro _
      rw [resolveCollectionSourceInfo]
  | some b =>
    obtain ⟨kind, path⟩ := b
    by_cases hk : (kind == "module") = true
    · constructor
      · rintro _ ⟨b2, init, elems, hb2, hkind, _, _⟩
        obtain rfl : ({ kind := kind, path := path } : Binding) = b2 := by
          simpa using hb2
        exact hkind (by simpa using hk)
      · intro _
        rw [resolveCollectionSourceInfo, if_pos hk]
    · have hkind : kind ≠ "module" := by simpa using hk
      cases path with
      | otherDecl =>
        constructor
        · rintro _ ⟨b2, init, elems, hb2, _, hpath2, _⟩
          obtain rfl : ({ kind := kind, path := BindingPath.otherDecl } :
              Binding) = b2 := by simpa using hb2
          simp at hpath2
        · intro _
          rw [resolveCollectionSourceInfo, if_neg hk]
      | varDecl initOpt =>
        cases initOpt with
        | none =>
          constructor
          · rintro _ ⟨b2, init, elems, hb2, _, hpath2, _⟩
            obtain rfl : ({ kind := kind, path := BindingPath.varDecl none } :
                Binding) = b2 := by simpa using hb2
            simp at hpath2
          · intro _
            rw [resolveCollectionSourceInfo, if_neg hk]
        | some init =>
          rw [resolveCollectionSourceInfo_varDecl_some, if_neg hk]
          constructor
          · intro hnone
            rintro ⟨b2, init2, elems, hb2, _, hpath2, hui2⟩
            obtain rfl : ({ kind := kind, path := BindingPath.varDecl (some init) } :
                Binding) = b2 := by simpa using hb2
            have hinit : init = init2 := by simpa using hpath2
            subst hinit
            rw [hui2] at hnone
            simp at hnone
          · intro hne
            cases hui : unwrapInit init with
            | arrayInit elems2 =>
              exact absurd ⟨{ kind := kind, path := BindingPath.varDecl (some init) },
                init, elems2, rfl, hkind, rfl, hui⟩ hne
            | callInit => rfl
            | tsAs e => rfl
            | typeCast e => rfl
            | tsAssert e => rfl
            | parenI e => rfl
            | otherInit => rfl

/-- C9: a rendered `<identifier>.map(cb)` call is annotated only when
the identifier's binding is a local (non-module) variable declarator
whose initializer unwraps to a literal array; whenever resolution
fails — exactly the dynamic-source shapes — the callback's returned
elements are passed through untouched, so no attribute of any kind is
emitted for them. -/
theorem c9_collection_source_gating (fuel : Nat) (filename : String)
    (site : MapCallSite) (ctx : IdGenerationContext) (sourceName : String)
    (propName : Option String)
    (hcallee : site.callee =
      CalleeShape.memberCallee (CalleeObj.objIdent sourceName) propName) :
    (resolveCollectionSourceInfo sourceName site.binding = none →
      processCollectionRenderingCall fuel filename site ctx =
        some (originalElements site, ctx)) ∧
    (resolveCollectionSourceInfo sourceName site.binding = none ↔
      ¬ ∃ (b : Binding) (init : InitExpr) (elems : List ColElem),
        site.binding = some b ∧ b.kind ≠ "module" ∧
        b.path = BindingPath.varDecl (some init) ∧
        unwrapInit init = InitExpr.arrayInit elems) := by
  refine ⟨?_, resolveCollectionSourceInfo_none_iff sourceName site.binding⟩
  intro hres
  rw [processCollectionRenderingCall]
  by_cases hf : (filename == "") = true
  · rw [if_pos hf]
  · rw [if_neg hf]
    by_cases hu : (!site.underJSXExpressionContainer) = true
    · rw [if_pos hu]
    · rw [if_neg hu]
      rw [hcallee]
      dsimp only []
      by_cases hp : (!(propName == some "map")) = true
      · rw [if_pos hp]
      · rw [if_neg hp]
        rw [hres]

/-- C9 witness: `items.map(item => <li/>)` where `items` is
initialized from a function call (fetched data) is skipped: the
returned element is untouched. -/
theorem c9_collection_source_gating_witness :
    processCollectionRenderingCall 1 "src/List.js"
      { underJSXExpressionContainer := true, callee := CalleeShape.memberCallee (CalleeObj.objIdent "items") (some "map"), binding := some { kind := "let", path := BindingPath.varDecl (some InitExpr.callInit) }, callbackArg := CbArg.cbFn [Param.identP "item"] (CbBody.jsxElemB "li" [] []) }
      { filename := "src/List.js", usedIds := [], elementCounter := 0, elementPath := [] } =
    some (originalElements
      { underJSXExpressionContainer := true, callee := CalleeShape.memberCallee (CalleeObj.objIdent "items") (some "map"), binding := some { kind := "let", path := BindingPath.varDecl (some InitExpr.callInit) }, callbackArg := CbArg.cbFn [Param.identP "item"] (CbBody.jsxElemB "li" [] []) },
      { filename := "src/List.js", usedIds := [], elementCounter := 0, elementPath := [] }) :=
  (c9_collection_source_gating 1 "src/List.js"
    { underJSXExpressionContainer := true, callee := CalleeShape.memberCallee (CalleeObj.objIdent "items") (some "map"), binding := some { kind := "let", path := BindingPath.varDecl (some InitExpr.callInit) }, callbackArg := CbArg.cbFn [Param.identP "item"] (CbBody.jsxElemB "li" [] []) }
    { filename := "src/List.js", usedIds := [], elementCounter := 0, elementPath := [] }
    "items" (some "map") rfl).1 rfl

/-- C10 counterexample: a two-element backing array in which only the
first element resolves (the second is a hole) still gets an indexed
`children-source`/`img-source` value — an embedded array with a `null`
hole — although the claim requires every element to resolve and
forbids partial values. -/
theorem c10_partial_locations_counterexample :
    getLocationForSegments "src/List.js" ColElem.holeEl [] = none ∧
    buildCollectionLocationAttributeValue "src/List.js"
      { sourceName := "items", elems := [ColElem.litEl (LitExpr.leafE (some { startLine := 1, startCol := 0, endLine := 1, endCol := 5 })), ColElem.holeEl] }
      (some "i") [] =
    some (AttributeValueArg.exprA (Expr.member
      (Expr.arrayL [Expr.strLit (formatLocation "src/List.js" { startLine := 1, startCol := 0, endLine := 1, endCol := 5 }), Expr.nullLit])
      (MKey.computedIdentKey "i") true false)) :=
  ⟨rfl, rfl⟩

/-- C10 (amended): without an index the attribute is emitted exactly
when precisely one element resolves (its single static descriptor);
with an index and an array of length other than one, it is emitted
exactly when at least one element resolves, as an indexed embedded
array carrying a `null` hole for every unresolvable element; with an
index and a one-element array, it is emitted exactly when that sole
element resolves, as its single static descriptor. -/
theorem c10_amended_value_characterization (filename : String)
    (info : CollectionSourceInfo) (segments : List PropertyAccessSegment) :
    (∀ v, buildCollectionLocationAttributeValue filename info none segments =
        some v ↔
      ∃ a, (info.elems.map fun el =>
          getLocationForSegments filename el segments).filterMap id = [a] ∧
        v = AttributeValueArg.strA a) ∧
    (∀ idx : String, info.elems.length ≠ 1 →
      buildCollectionLocationAttributeValue filename info (some idx) segments =
        (if (info.elems.map fun el =>
            getLocationForSegments filename el segments).filterMap id = [] then
          none
        else
          some (AttributeValueArg.exprA (Expr.member
            (Expr.arrayL ((info.elems.map fun el =>
                getLocationForSegments filename el segments).map fun l =>
              match l with
              | some s => Expr.strLit s
              | none => Expr.nullLit))
            (MKey.computedIdentKey idx) true false)))) ∧
    (∀ idx : String, info.elems.length = 1 →
      ∀ v, buildCollectionLocationAttributeValue filename info (some idx)
          segments = some v ↔
        ∃ a, (info.elems.map fun el =>
            getLocationForSegments filename el segments).filterMap id = [a] ∧
          v = AttributeValueArg.strA a) := by
  refine ⟨?_, ?_, ?_⟩
  · intro v
    rw [buildCollectionLocationAttributeValue]
    rcases hA : (info.elems.map fun el =>
        getLocationForSegments filename el segments).filterMap id with _ | ⟨a, rest⟩
    · simp
    · rw [if_neg (by simp)]
      rcases rest with _ | ⟨b, rest2⟩
      · have hone : (([a] : List String).length == 1) = true := rfl
        rw [if_pos hone]
        constructor
        · intro h2
          have hv : AttributeValueArg.strA a = v := by simpa using h2
          exact ⟨a, rfl, hv.symm⟩
        · rintro ⟨a2, ha2, hv⟩
          obtain rfl : a = a2 := by simpa using ha2
          rw [hv]
      · rw [if_neg (by simp only [List.length_cons, beq_iff_eq]; omega)]
        simp
  · intro idx hlen
    rw [buildCollectionLocationAttributeValue]
    rcases hA : (info.elems.map fun el =>
        getLocationForSegments filename el segments).filterMap id with _ | ⟨a, rest⟩
    · simp
    · rw [if_neg (by simp)]
      rw [if_neg (by simpa using hlen)]
      rw [if_neg (by simp)]
  · intro idx hlen v
    rw [buildCollectionLocationAttributeValue]
    rcases hA : (info.elems.map fun el =>
        getLocationForSegments filename el segments).filterMap id with _ | ⟨a, rest⟩
    · simp
    · have hle : ((info.elems.map fun el =>
          getLocationForSegments filename el segments).filterMap id).length ≤
          info.elems.length := by
        calc ((info.elems.map fun el =>
              getLocationForSegments filename el segments).filterMap id).length ≤
            (info.elems.map fun el =>
              getLocationForSegments filename el segments).length :=
              List.length_filterMap_le _ _
          _ = info.elems.length := List.length_map _ _
      rw [hA, hlen] at hle
      have hrest : rest = [] := by
        simp only [List.length_cons] at hle
        have hr0 : rest.length = 0 := by omega
        exact List.length_eq_zero.mp hr0
      subst hrest
      rw [if_neg (by simp)]
      rw [if_pos (by simp [hlen])]
      constructor
      · intro h2
        have hv : AttributeValueArg.strA a = v := by simpa using h2
        exact ⟨a, rfl, hv.symm⟩
      · rintro ⟨a2, ha2, hv⟩
        obtain rfl : a = a2 := by simpa using ha2
        rw [hv]

/-- C10 witness: with index `i` and a two-element array of which one
element is an unresolvable hole, the emitted value is the embedded
array with a null hole. -/
theorem c10_amended_witness :
    buildCollectionLocationAttributeValue "f.js"
      { sourceName := "items", elems := [ColElem.litEl (LitExpr.leafE (some { startLine := 2, startCol := 2, endLine := 2, endCol := 9 })), ColElem.holeEl] }
      (some "i") [] =
    some (AttributeValueArg.exprA (Expr.member
      (Expr.arrayL [Expr.strLit (formatLocation "f.js" { startLine := 2, startCol := 2, endLine := 2, endCol := 9 }), Expr.nullLit])
      (MKey.computedIdentKey "i") true false)) :=
  (c10_amended_value_characterization "f.js"
    { sourceName := "items", elems := [ColElem.litEl (LitExpr.leafE (some { startLine := 2, startCol := 2, endLine := 2, endCol := 9 })), ColElem.holeEl] }
    []).2.1 "i" (by decide)

end JsxMeta
